import Mathlib

/-!
Verification development for the deanos repository's multi-source ingestion,
normalization, merge and incremental-diff pipeline.

The pipeline lives in three scripts:
  * scripts/update_research_feed.py  (feed parsing, dedup, diff, snapshot)
  * scripts/update_weekly_content.py (feed parsing, dedup, LLM fallback)
  * scripts/sync_oura.py             (date-keyed N-way merge)

Python's builtin string operations (str.lower, str.strip, str.endswith,
str.replace, lexicographic comparison by code point) are re-implemented
below as structurally recursive functions on the character list of a
string, so that every definition is executable inside the kernel.
UTF-8 decode/encode round-trips (bytes.decode / str.encode in the source)
are modelled as the identity on the character sequence.
-/

/-- Python `ch.lower()` for a single character (ASCII range, as used by the
keys in this repository: URLs and titles). -/
def lowerChar (c : Char) : Char :=
  if 65 ≤ c.toNat ∧ c.toNat ≤ 90 then Char.ofNat (c.toNat + 32) else c

/-- Python `s.lower()`. -/
def strLower (s : String) : String := ⟨s.data.map lowerChar⟩

/-- Python whitespace stripped by `str.strip()` (ASCII part). -/
def isPySpace (c : Char) : Bool :=
  c = ' ' || c = '\t' || c = '\n' || c = '\r' || c = '\x0b' || c = '\x0c'

/-- Python `s.strip()`. -/
def strTrim (s : String) : String :=
  ⟨((s.data.dropWhile isPySpace).reverse.dropWhile isPySpace).reverse⟩

/-- Python string `<=` comparison: lexicographic on code points. -/
def lexLe : List Char → List Char → Bool
  | [], _ => true
  | _ :: _, [] => false
  | a :: as, b :: bs =>
    if a.toNat < b.toNat then true
    else if b.toNat < a.toNat then false
    else lexLe as bs

/-- Python `a <= b` on strings. -/
def strLe (a b : String) : Bool := lexLe a.data b.data

/-- Python `s.endswith("Z")`. -/
def endsWithZ (s : String) : Bool :=
  match s.data.getLast? with
  | some c => c = 'Z'
  | none => false

/-- Character-level worker for Python `s.replace("Z", "+00:00")`
(replaces every occurrence, exactly as `str.replace` does). -/
def replaceZChars : List Char → List Char
  | [] => []
  | c :: rest =>
    if c = 'Z' then '+' :: '0' :: '0' :: ':' :: '0' :: '0' :: replaceZChars rest
    else c :: replaceZChars rest

/-- Python `s.replace("Z", "+00:00")`. -/
def replaceZ (s : String) : String := ⟨replaceZChars s.data⟩

/-- First value bound to key `k` in an association list (Python dict lookup,
insertion order preserved). -/
def alookup {β : Type} (k : String) : List (String × β) → Option β
  | [] => none
  | p :: ps => if p.1 = k then some p.2 else alookup k ps

/-!
## Stable descending sort

`list.sort(key=..., reverse=True)` from the source is modelled by a stable
insertion sort that orders by a string key, larger keys first.
-/

/-- Insert `x` into a list already sorted by `key` descending, keeping `x`
before any element whose key is `≤` its own (stable, descending). -/
def insertByDesc {α : Type} (key : α → String) (x : α) : List α → List α
  | [] => [x]
  | y :: ys =>
    if strLe (key y) (key x) then x :: y :: ys
    else y :: insertByDesc key x ys

/-- Stable sort, descending by the string key — the model of
`items.sort(key=..., reverse=True)`. -/
def sortByDesc {α : Type} (key : α → String) : List α → List α
  | [] => []
  | x :: xs => insertByDesc key x (sortByDesc key xs)

/-!
## Canonical content items (research feed / weekly content)
-/

/-- The canonical content record emitted by both feed parsers
(`parse_rss` / `parse_atom`): title, url, source name, optional ISO
timestamp string. -/
structure CanonicalItem where
  title : String
  url : String
  source : String
  published : Option String
deriving DecidableEq, Repr

/-- The normalization key `(item["url"] or item["title"]).lower()` used by
`dedupe_items` in both feed scripts. -/
def itemKey (i : CanonicalItem) : String :=
  strLower (if i.url = "" then i.title else i.url)

/-- Worker loop of `dedupe_items`, carrying the `seen` key set. -/
def dedupeGo (seen : List String) : List CanonicalItem → List CanonicalItem
  | [] => []
  | i :: rest =>
    if itemKey i ∈ seen then dedupeGo seen rest
    else i :: dedupeGo (itemKey i :: seen) rest

/-- `dedupe_items` from `update_research_feed.py` (lines 130-139) and
`update_weekly_content.py` (lines 206-215): keep the first item for each
normalized key, preserving order. -/
def dedupe_items (items : List CanonicalItem) : List CanonicalItem :=
  dedupeGo [] items

/-- Sort key `item["published"] or ""` used by the published-descending
sorts in both scripts (`None` timestamps become the empty string). -/
def pubKey (i : CanonicalItem) : String := i.published.getD ""

/-!
## Date parsing (`parse_date`)

`parse_date` delegates the two grammars to the standard library
(`email.utils.parsedate_to_datetime` for RFC-822, `datetime.fromisoformat`
for ISO-8601).  Those collaborators are modelled as function parameters
returning an optional datetime; `None`/exception outcomes are both `none`.
A Python `datetime` is modelled by its naive wall-clock value (seconds)
plus an optional UTC offset (seconds); `tzinfo is None` is `tz = none`.
-/

/-- Model of a Python `datetime`: naive wall-clock reading plus optional
UTC offset in seconds (`none` = naive, no tzinfo). -/
structure PyDateTime where
  wall : Int
  tz : Option Int
deriving DecidableEq, Repr

/-- The `dt.replace(tzinfo=timezone.utc)` / `dt.astimezone(timezone.utc)`
sequence from `parse_date`: a naive datetime is stamped UTC as-is, an aware
one is converted by subtracting its offset; the result always carries the
UTC (zero) offset. -/
def normalizeUTC (dt : PyDateTime) : PyDateTime :=
  match dt.tz with
  | none => { wall := dt.wall, tz := some 0 }
  | some off => { wall := dt.wall - off, tz := some 0 }

/-- The `value.replace("Z", "+00:00") if value.endswith("Z")` preprocessing
applied before the ISO-8601 attempt. -/
def zToOffset (v : String) : String :=
  if endsWithZ v then replaceZ v else v

/-- `parse_date` from `update_research_feed.py` lines 46-66 (identical in
`update_weekly_content.py`).  `rfc` and `iso` are the stdlib collaborators
(RFC-822 and ISO-8601 grammars); the input is optional because callers pass
`findtext` results that may be `None`. -/
def parse_date (rfc iso : String → Option PyDateTime) (value : Option String) :
    Option PyDateTime :=
  match value with
  | none => none
  | some v =>
    if v = "" then none
    else
      let v := strTrim v
      match rfc v with
      | some dt => some (normalizeUTC dt)
      | none =>
        match iso (zToOffset v) with
        | some dt => some (normalizeUTC dt)
        | none => none

/-!
## Payload sanitizing (`sanitize_xml`) and what each parser feeds to
`ET.fromstring`
-/

/-- The character predicate of `sanitize_xml`: tab, newline, carriage
return, or code point at least 32. -/
def allowedChar (c : Char) : Bool :=
  c = '\t' || c = '\n' || c = '\r' || decide (32 ≤ c.toNat)

/-- `sanitize_xml` from both feed scripts: keep exactly the allowed
characters (the UTF-8 decode/encode around the filter is the identity on
the character sequence). -/
def sanitize_xml (payload : List Char) : List Char :=
  payload.filter allowedChar

/-- Payload handed to `ET.fromstring` by `parse_rss` in
`update_research_feed.py` line 81: `sanitize_xml(xml_data)`. -/
def rssParseInputResearch (payload : List Char) : List Char :=
  sanitize_xml payload

/-- Payload handed to `ET.fromstring` by `parse_rss` in
`update_weekly_content.py` line 157: `sanitize_xml(xml_data)`. -/
def rssParseInputWeekly (payload : List Char) : List Char :=
  sanitize_xml payload

/-- Payload handed to `ET.fromstring` by `parse_atom` in
`update_weekly_content.py` line 180: `sanitize_xml(xml_data)`. -/
def atomParseInputWeekly (payload : List Char) : List Char :=
  sanitize_xml payload

/-- Payload handed to `ET.fromstring` by `parse_atom` in
`update_research_feed.py` line 104: the raw `xml_data`, with no
`sanitize_xml` call. -/
def atomParseInputResearch (payload : List Char) : List Char :=
  payload

/-!
## Structural feed parsers

`ET.fromstring` (the structural XML parse, a stdlib collaborator) is out of
scope; the extraction logic of `parse_rss` / `parse_atom` is modelled over
the already-parsed element tree.  `findtext` results that can be absent are
`Option String`; Atom `findtext(..., default="")` results are plain
strings.  The `isoformat` rendering of a parsed datetime is the stdlib
collaborator `isoF`.
-/

/-- One `<item>` of an RSS channel as seen by `parse_rss` via `findtext`:
each field is `none` when the child element is absent. -/
structure RssItemXml where
  title : Option String
  link : Option String
  pubDate : Option String
  dcDate : Option String
deriving DecidableEq, Repr

/-- An RSS document: `root.find("channel")` may be absent. -/
structure RssDoc where
  channel : Option (List RssItemXml)
deriving DecidableEq, Repr

/-- Python `a or b` on two optional strings (`None` and `""` are falsy),
as in `item.findtext("pubDate") or item.findtext("dc:date")`. -/
def pyOrOpt (a b : Option String) : Option String :=
  match a with
  | none => b
  | some s => if s = "" then b else some s

/-- Python `a or b` on two strings (`""` is falsy), as in the Atom
`published or updated` fallback. -/
def pyOrStr (a b : String) : String :=
  if a = "" then b else a

/-- `parse_rss` body (update_research_feed.py lines 80-100, identical in
update_weekly_content.py): map each `<item>` to a CanonicalItem, silently
skipping records whose stripped title or link is empty.  `rfc`/`iso` are
the date grammars, `isoF` the `datetime.isoformat` collaborator. -/
def parse_rss (rfc iso : String → Option PyDateTime) (isoF : PyDateTime → String)
    (doc : RssDoc) (source : String) : List CanonicalItem :=
  match doc.channel with
  | none => []
  | some xs =>
    xs.filterMap (fun it =>
      let title := strTrim (it.title.getD "")
      let link := strTrim (it.link.getD "")
      let published := (parse_date rfc iso (pyOrOpt it.pubDate it.dcDate)).map isoF
      if title = "" || link = "" then none
      else some { title := title, url := link, source := source, published := published })

/-- One `<link>` element of an Atom entry: `rel` and `href` attributes,
each possibly absent. -/
structure AtomLink where
  rel : Option String
  href : Option String
deriving DecidableEq, Repr

/-- One `<entry>` of an Atom feed.  `findtext(..., default="")` makes the
text fields plain strings; `links` lists the entry's `<link>` elements in
document order. -/
structure AtomEntry where
  title : String
  links : List AtomLink
  published : String
  updated : String
deriving DecidableEq, Repr

/-- `entry.find("atom:link[@rel='alternate']")` falling back to
`entry.find("atom:link")`. -/
def chosenLink (e : AtomEntry) : Option AtomLink :=
  match e.links.find? (fun l => l.rel == some "alternate") with
  | some l => some l
  | none => e.links.head?

/-- Processing of a single Atom entry.  Mirrors
`link = (link_elem.attrib.get("href") if link_elem is not None else "").strip()`:
when the chosen link element exists but carries no `href` attribute,
`attrib.get` yields `None` and `.strip()` raises `AttributeError`, which the
embedding surfaces as `Except.error`; otherwise the entry is either dropped
(`ok none`) or emitted (`ok (some item)`). -/
def atomEntryItem (rfc iso : String → Option PyDateTime) (isoF : PyDateTime → String)
    (source : String) (e : AtomEntry) : Except String (Option CanonicalItem) :=
  let title := strTrim e.title
  match chosenLink e with
  | some l =>
    match l.href with
    | none => Except.error "AttributeError: NoneType object has no attribute strip"
    | some h =>
      let link := strTrim h
      let published :=
        (parse_date rfc iso (some (pyOrStr e.published e.updated))).map isoF
      if title = "" || link = "" then Except.ok none
      else Except.ok (some { title := title, url := link, source := source, published := published })
  | none => Except.ok none

/-- `parse_atom` body (update_research_feed.py lines 103-127, identical in
update_weekly_content.py after its extra sanitize step): fold over the
entries; a raised exception from one entry aborts the whole parse. -/
def parse_atom (rfc iso : String → Option PyDateTime) (isoF : PyDateTime → String)
    (entries : List AtomEntry) (source : String) : Except String (List CanonicalItem) :=
  match entries with
  | [] => Except.ok []
  | e :: rest =>
    match atomEntryItem rfc iso isoF source e with
    | Except.error msg => Except.error msg
    | Except.ok r =>
      match parse_atom rfc iso isoF rest source with
      | Except.error msg => Except.error msg
      | Except.ok rs =>
        Except.ok (match r with | some c => c :: rs | none => rs)

/-!
## Research feed orchestration (`main` of update_research_feed.py)

Per-source fetching and structural parsing are collaborator calls whose
outcomes the orchestration loop consumes: a fetch failure `continue`s, a
parse failure contributes nothing, a success extends `all_items`.  The
snapshot write itself is the out-of-scope terminal boundary; `mainRun`
computes the snapshot document that gets written.
-/

/-- Outcome of one iteration of the `for feed in FEEDS` loop: the fetch
raised, the parse raised, or a list of canonical items was produced. -/
inductive SourceOutcome where
  | fetchFailed (msg : String)
  | parseFailed (msg : String)
  | ok (items : List CanonicalItem)
deriving DecidableEq, Repr

/-- Is this outcome one of the two swallowed per-source failures? -/
def SourceOutcome.failed : SourceOutcome → Prop
  | .fetchFailed _ => True
  | .parseFailed _ => True
  | .ok _ => False

instance (o : SourceOutcome) : Decidable o.failed := by
  cases o <;> simp [SourceOutcome.failed] <;> infer_instance

/-- The `all_items` accumulation loop of `main` (lines 157-171): failed
sources contribute nothing, successful ones extend the list in order. -/
def collectItems : List SourceOutcome → List CanonicalItem
  | [] => []
  | .fetchFailed _ :: rest => collectItems rest
  | .parseFailed _ :: rest => collectItems rest
  | .ok items :: rest => items ++ collectItems rest

/-- An item of the previously persisted snapshot as read back from JSON;
`item.get("url", "")` maps an absent url to `""`. -/
structure PrevItem where
  url : String
deriving DecidableEq, Repr

/-- The previously persisted feed document as consumed by `main`:
`existing.get("items", [])` and `existing.get("updated")`. -/
structure PrevFeed where
  items : List PrevItem
  updated : Option String
deriving DecidableEq, Repr

/-- `load_existing_feed` (lines 142-148): any read/parse failure of
`research-feed.json` degrades to the empty snapshot
`{"items": [], "updated": None}`. -/
def load_existing_feed (r : Except String PrevFeed) : PrevFeed :=
  match r with
  | Except.ok f => f
  | Except.error _ => { items := [], updated := none }

/-- `existing_urls` (line 154): the previous snapshot's case-insensitive
url key set. -/
def existingKeys (f : PrevFeed) : List String :=
  f.items.map (fun i => strLower i.url)

/-- The diff loop (lines 180-181): each item is flagged
`isNew = url.lower() not in existing_urls`. -/
def markNew (items : List CanonicalItem) (existingUrls : List String) :
    List (CanonicalItem × Bool) :=
  items.map (fun i => (i, decide (strLower i.url ∉ existingUrls)))

/-- The snapshot document written at the end of a run (lines 186-190). -/
structure Snapshot where
  updated : String
  lastUpdated : Option String
  items : List (CanonicalItem × Bool)
deriving DecidableEq, Repr

/-- `main` of update_research_feed.py as a function from the collaborator
outcomes (per-source results, previous-snapshot read, current time) to the
snapshot it writes: load previous feed, collect, dedupe, sort by published
descending, flag new items, keep the first 50. -/
def mainRun (outcomes : List SourceOutcome) (prevResult : Except String PrevFeed)
    (now : String) : Snapshot :=
  let existing := load_existing_feed prevResult
  let existingUrls := existingKeys existing
  let deduped := dedupe_items (collectItems outcomes)
  let sorted := sortByDesc pubKey deduped
  let marked := markNew sorted existingUrls
  { updated := now, lastUpdated := existing.updated, items := marked.take 50 }

/-- The next run reads the written snapshot back: its items' urls become
the `PrevItem`s of that run's `load_existing_feed` result. -/
def toPrevFeed (s : Snapshot) : PrevFeed :=
  { items := s.items.map (fun p => { url := p.1.url }), updated := some s.updated }

/-!
## Weekly content job (`update_weekly_content.py`)

The LLM completion collaborator either produces a structured payload or
fails (missing key, missing package, request error, JSON decode error,
missing top-level key): every failure path of
`generate_workouts_with_claude` / `generate_meal_plan_with_claude` returns
the empty list, modelled by `Option` payloads where `none` covers every
failing or schema-violating response.
-/

/-- One exercise of a workout (the static template's entries optionally
carry a video link). -/
structure Exercise where
  name : String
  sets : String
  video : Option String
deriving DecidableEq, Repr

/-- One day of the workout plan. -/
structure Workout where
  day : String
  type : String
  location : String
  exercises : List Exercise
deriving DecidableEq, Repr

/-- The built-in static `WORKOUT_TEMPLATE` (update_weekly_content.py lines
65-107). -/
def WORKOUT_TEMPLATE : List Workout :=
  [ { day := "Monday", type := "Upper Body Strength", location := "LA Fitness",
      exercises :=
        [ { name := "Seated Chest Press Machine", sets := "3x10-12",
            video := some "https://www.youtube.com/watch?v=xUm0BiZCWlQ" },
          { name := "Lat Pulldown", sets := "3x10-12",
            video := some "https://www.youtube.com/watch?v=CAwf7n6Luuc" },
          { name := "Seated Shoulder Press Machine", sets := "3x10-12",
            video := some "https://www.youtube.com/watch?v=Wqq43dKW1TU" },
          { name := "Seated Cable Row", sets := "3x10-12",
            video := some "https://www.youtube.com/watch?v=GZbfZ033f74" },
          { name := "Tricep Pushdown", sets := "3x12-15",
            video := some "https://www.youtube.com/watch?v=2-LAMcpzODU" } ] },
    { day := "Wednesday", type := "Lower Body Strength", location := "LA Fitness",
      exercises :=
        [ { name := "Leg Press", sets := "4x10-12",
            video := some "https://www.youtube.com/watch?v=IZxyjW7MPJQ" },
          { name := "Leg Curl Machine", sets := "3x12-15",
            video := some "https://www.youtube.com/watch?v=1Tq3QdYUuHs" },
          { name := "Leg Extension", sets := "3x12-15",
            video := some "https://www.youtube.com/watch?v=YyvSfVjQeL0" },
          { name := "Seated Calf Raise", sets := "3x15-20",
            video := some "https://www.youtube.com/watch?v=-M4-G8p8fmc" },
          { name := "Hip Adductor Machine", sets := "3x12-15",
            video := some "https://www.youtube.com/watch?v=2cPwLG3MOLs" } ] },
    { day := "Friday", type := "PT Session with Josh", location := "Full Body",
      exercises :=
        [ { name := "Personal Training Session",
            sets := "Full body, guided by Josh", video := none } ] },
    { day := "Saturday", type := "Cardio + Mobility", location := "LA Fitness",
      exercises :=
        [ { name := "Upright Bike", sets := "30 min, 90+ RPM, Level 12",
            video := some "https://www.youtube.com/watch?v=oBFhn-2BrEw" },
          { name := "Seated Stretch Flow", sets := "10-12 min, easy pace",
            video := none } ] } ]

/-- One meal of the documented meal-plan schema. -/
structure Meal where
  title : String
  description : String
  time : String
  protein : String
deriving DecidableEq, Repr

/-- One day of the documented meal-plan schema. -/
structure MealDay where
  day : String
  breakfast : Meal
  lunch : Meal
  dinner : Meal
deriving DecidableEq, Repr

/-- `generate_workouts_with_claude` (lines 218-303): any failing or
schema-violating LLM response (`none`) yields the empty list, a valid one
yields its `workouts` payload. -/
def generate_workouts_with_claude (resp : Option (List Workout)) : List Workout :=
  resp.getD []

/-- `generate_meal_plan_with_claude` (lines 306-375): any failing or
schema-violating LLM response (`none`) yields the empty list, a valid one
yields its `days` payload. -/
def generate_meal_plan_with_claude (resp : Option (List MealDay)) : List MealDay :=
  resp.getD []

/-- The `weekly-recipes.json` document (lines 422-426): the meal plan is
written exactly as generated. -/
structure WeeklyRecipes where
  updated : String
  meals : List MealDay
  items : List CanonicalItem
deriving DecidableEq, Repr

/-- The `weekly-workouts.json` document (lines 428-432): the workouts field
is `workout_items or WORKOUT_TEMPLATE`. -/
structure WeeklyWorkouts where
  updated : String
  workouts : List Workout
  sources : List CanonicalItem
deriving DecidableEq, Repr

/-- Assembly of `weekly_recipes` in `main` (lines 422-426). -/
def weeklyRecipesDoc (now : String) (meal_plan : List MealDay)
    (recipe_items : List CanonicalItem) : WeeklyRecipes :=
  { updated := now, meals := meal_plan, items := recipe_items }

/-- Assembly of `weekly_workouts` in `main` (lines 428-432): Python
`workout_items or WORKOUT_TEMPLATE` falls back to the static template
exactly when the generated list is empty. -/
def weeklyWorkoutsDoc (now : String) (workout_items : List Workout)
    (longevity_items : List CanonicalItem) : WeeklyWorkouts :=
  { updated := now,
    workouts := if workout_items.isEmpty then WORKOUT_TEMPLATE else workout_items,
    sources := longevity_items.take 5 }

/-!
## Date-keyed merge (`main` of sync_oura.py, lines 269-365)

`daily_data` is a Python dict from date string to a per-day record, itself
a dict from field name to a JSON value; both preserve insertion order and
are modelled as association lists.  JSON values are opaque to the merge
and modelled by `JVal`.
-/

/-- A JSON value stored in a per-day record (scores, durations, strings,
contributor objects, or null). -/
inductive JVal where
  | null
  | int (n : Int)
  | str (s : String)
  | obj (fields : List (String × JVal))

/-- A per-day record: field name to value, in insertion order. -/
abbrev DayRec := List (String × JVal)

/-- The running `daily_data` mapping: date string to record, in insertion
order. -/
abbrev DailyData := List (String × DayRec)

/-- `Option.getD`-style rendering of an optional duration into the stored
JSON value. -/
def jOfOptInt (o : Option Int) : JVal :=
  match o with
  | none => JVal.null
  | some n => JVal.int n

/-- Python `record[k] = v` on a per-day record: replace in place if the key
exists (keeping its position), else append. -/
def setField (r : DayRec) (k : String) (v : JVal) : DayRec :=
  if (alookup k r).isSome then
    r.map (fun kv => if kv.1 = k then (kv.1, v) else kv)
  else r ++ [(k, v)]

/-- `if date not in daily_data: daily_data[date] = {"date": date}`. -/
def ensureDate (dd : DailyData) (d : String) : DailyData :=
  if (alookup d dd).isSome then dd
  else dd ++ [(d, [("date", JVal.str d)])]

/-- `daily_data[date][k] = v`: update the record stored at `date`. -/
def setDD (dd : DailyData) (d k : String) (v : JVal) : DailyData :=
  dd.map (fun p => if p.1 = d then (p.1, setField p.2 k v) else p)

/-- Set a sequence of fields on one record, in order. -/
def setFields (r : DayRec) (kvs : List (String × JVal)) : DayRec :=
  kvs.foldl (fun r kv => setField r kv.1 kv.2) r

/-- Set a sequence of fields on the record at `date`, in order. -/
def setAllDD (dd : DailyData) (d : String) (kvs : List (String × JVal)) : DailyData :=
  kvs.foldl (fun dd kv => setDD dd d kv.1 kv.2) dd

/-- A generic batch loop body: `if not date: continue`, ensure the date's
record exists, then assign the batch's field group. -/
def applyGroup {σ : Type} (dateOf : σ → String) (fields : σ → List (String × JVal))
    (dd : DailyData) (item : σ) : DailyData :=
  if dateOf item = "" then dd
  else setAllDD (ensureDate dd (dateOf item)) (dateOf item) (fields item)

/-- A generic `for item in batch:` merge loop. -/
def addBatch {σ : Type} (dateOf : σ → String) (fields : σ → List (String × JVal))
    (dd : DailyData) (batch : List σ) : DailyData :=
  batch.foldl (applyGroup dateOf fields) dd

/-- One record of the `daily_sleep` batch as consumed by the merge loop. -/
structure SleepScoreItem where
  date : String
  score : JVal
  contributors : JVal

/-- One record of the `sleep_periods` batch. `total_sleep_duration` is the
optional number the tie-break compares via `or 0`. -/
structure SleepPeriodItem where
  date : String
  bedtime_start : JVal
  bedtime_end : JVal
  total_sleep_duration : Option Int
  deep_sleep_duration : JVal
  rem_sleep_duration : JVal
  light_sleep_duration : JVal
  awake_time : JVal
  efficiency : JVal
  average_heart_rate : JVal
  lowest_heart_rate : JVal
  average_hrv : JVal
  average_breath : JVal
  restless_periods : JVal

/-- One record of the `readiness` batch. -/
structure ReadinessItem where
  date : String
  score : JVal
  temperature_deviation : JVal
  temperature_trend_deviation : JVal
  contributors : JVal

/-- One record of the `activity` batch. -/
structure ActivityItem where
  date : String
  score : JVal
  active_calories : JVal
  total_calories : JVal
  steps : JVal
  equivalent_walking_distance : JVal
  high_activity_time : JVal
  medium_activity_time : JVal
  low_activity_time : JVal
  sedentary_time : JVal
  inactivity_alerts : JVal
  contributors : JVal

/-- One record of the per-day `heart_rate` batch. -/
structure HeartRateItem where
  date : String
  average_hr : JVal
  min_hr : JVal
  max_hr : JVal
  resting_hr : JVal
  awake_hr : JVal

/-- One record of the `spo2` batch. -/
structure Spo2Item where
  date : String
  spo2_average : JVal

/-- Field group written by the sleep-score loop (lines 272-279). -/
def ssFields (i : SleepScoreItem) : List (String × JVal) :=
  [("sleep_score", i.score), ("sleep_contributors", i.contributors)]

/-- Field group written by the sleep-period loop (lines 294-309). -/
def spFields (i : SleepPeriodItem) : List (String × JVal) :=
  [("bedtime_start", i.bedtime_start),
   ("bedtime_end", i.bedtime_end),
   ("total_sleep_seconds", jOfOptInt i.total_sleep_duration),
   ("deep_sleep_seconds", i.deep_sleep_duration),
   ("rem_sleep_seconds", i.rem_sleep_duration),
   ("light_sleep_seconds", i.light_sleep_duration),
   ("awake_seconds", i.awake_time),
   ("sleep_efficiency", i.efficiency),
   ("average_hrv", i.average_hrv),
   ("lowest_hr", i.lowest_heart_rate),
   ("average_hr_sleep", i.average_heart_rate),
   ("average_breath", i.average_breath),
   ("restless_periods", i.restless_periods)]

/-- Field group written by the readiness loop (lines 312-321). -/
def rdFields (i : ReadinessItem) : List (String × JVal) :=
  [("readiness_score", i.score),
   ("temperature_deviation", i.temperature_deviation),
   ("temperature_trend_deviation", i.temperature_trend_deviation),
   ("readiness_contributors", i.contributors)]

/-- Field group written by the activity loop (lines 324-340). -/
def acFields (i : ActivityItem) : List (String × JVal) :=
  [("activity_score", i.score),
   ("steps", i.steps),
   ("active_calories", i.active_calories),
   ("total_calories", i.total_calories),
   ("distance_meters", i.equivalent_walking_distance),
   ("high_activity_seconds", i.high_activity_time),
   ("medium_activity_seconds", i.medium_activity_time),
   ("low_activity_seconds", i.low_activity_time),
   ("sedentary_seconds", i.sedentary_time),
   ("inactivity_alerts", i.inactivity_alerts),
   ("activity_contributors", i.contributors)]

/-- Field group written by the heart-rate loop (lines 343-353). -/
def hrFields (i : HeartRateItem) : List (String × JVal) :=
  [("resting_hr", i.resting_hr),
   ("average_hr", i.average_hr),
   ("min_hr", i.min_hr),
   ("max_hr", i.max_hr),
   ("awake_hr", i.awake_hr)]

/-- Field group written by the SpO2 loop (lines 356-362). -/
def soFields (i : Spo2Item) : List (String × JVal) :=
  [("spo2_average", i.spo2_average)]

/-- The field names each group writes, for disjointness statements. -/
def ssNames : List String := ["sleep_score", "sleep_contributors"]

/-- Field names of the sleep-period group. -/
def spNames : List String :=
  ["bedtime_start", "bedtime_end", "total_sleep_seconds", "deep_sleep_seconds",
   "rem_sleep_seconds", "light_sleep_seconds", "awake_seconds", "sleep_efficiency",
   "average_hrv", "lowest_hr", "average_hr_sleep", "average_breath",
   "restless_periods"]

/-- Field names of the readiness group. -/
def rdNames : List String :=
  ["readiness_score", "temperature_deviation", "temperature_trend_deviation",
   "readiness_contributors"]

/-- Field names of the activity group. -/
def acNames : List String :=
  ["activity_score", "steps", "active_calories", "total_calories",
   "distance_meters", "high_activity_seconds", "medium_activity_seconds",
   "low_activity_seconds", "sedentary_seconds", "inactivity_alerts",
   "activity_contributors"]

/-- Field names of the heart-rate group. -/
def hrNames : List String :=
  ["resting_hr", "average_hr", "min_hr", "max_hr", "awake_hr"]

/-- Field names of the SpO2 group. -/
def soNames : List String := ["spo2_average"]

/-- The compared duration `item["total_sleep_duration"] or 0` of the
tie-break in the `sleep_by_date` loop. -/
def spDur (i : SleepPeriodItem) : Int := i.total_sleep_duration.getD 0

/-- One step of the `sleep_by_date` selection loop (lines 283-291): keep
the candidate with the strictly greater `total_sleep_duration or 0`. -/
def sbStep (acc : List (String × SleepPeriodItem)) (item : SleepPeriodItem) :
    List (String × SleepPeriodItem) :=
  if item.date = "" then acc
  else
    match alookup item.date acc with
    | none => acc ++ [(item.date, item)]
    | some prev =>
      if spDur prev < spDur item then
        acc.map (fun p => if p.1 = item.date then (p.1, item) else p)
      else acc

/-- `sleep_by_date` (lines 283-291): for each date keep the sleep period
with the greatest total duration, first writer kept on ties. -/
def sleepByDate (batch : List SleepPeriodItem) : List (String × SleepPeriodItem) :=
  batch.foldl sbStep []

/-- The sleep-period merge loop (lines 294-309): iterate `sleep_by_date`
in insertion order and assign the detail field group. -/
def addSleepPeriods (dd : DailyData) (batch : List SleepPeriodItem) : DailyData :=
  (sleepByDate batch).foldl
    (fun dd p => setAllDD (ensureDate dd p.1) p.1 (spFields p.2)) dd

/-- The whole `daily_data` fold of `main` (lines 269-362): six batches
applied in the fixed source order. -/
def mergeDaily (ds : List SleepScoreItem) (sp : List SleepPeriodItem)
    (rd : List ReadinessItem) (ac : List ActivityItem) (hr : List HeartRateItem)
    (so : List Spo2Item) : DailyData :=
  let dd : DailyData := []
  let dd := addBatch SleepScoreItem.date ssFields dd ds
  let dd := addSleepPeriods dd sp
  let dd := addBatch ReadinessItem.date rdFields dd rd
  let dd := addBatch ActivityItem.date acFields dd ac
  let dd := addBatch HeartRateItem.date hrFields dd hr
  addBatch Spo2Item.date soFields dd so

/-- `sorted(daily_data.keys(), reverse=True)` (line 365). -/
def sortedDatesDesc (dd : DailyData) : List String :=
  sortByDesc (fun d => d) (dd.map Prod.fst)

/-- `[daily_data[d] for d in sorted(daily_data.keys(), reverse=True)]`
(line 365): the `days` array of the written report. -/
def serializeDays (dd : DailyData) : List DayRec :=
  (sortedDatesDesc dd).map (fun d => (alookup d dd).getD [])

/-- Value of field `k` in the record stored at date `d`. -/
def getF (dd : DailyData) (d k : String) : Option JVal :=
  (alookup d dd).bind (fun r => alookup k r)

/-- Is field `k` present in the record stored at date `d`? -/
def hasF (dd : DailyData) (d k : String) : Bool :=
  (getF dd d k).isSome

/-- An RSS `<item>` survives `parse_rss` iff its stripped title and link are
both non-empty. -/
def goodRss (it : RssItemXml) : Bool :=
  !(strTrim (it.title.getD "") == "") && !(strTrim (it.link.getD "") == "")

/-- The CanonicalItem `parse_rss` builds for a surviving `<item>`. -/
def rssItemOf (rfc iso : String → Option PyDateTime) (isoF : PyDateTime → String)
    (source : String) (it : RssItemXml) : CanonicalItem :=
  { title := strTrim (it.title.getD ""), url := strTrim (it.link.getD ""),
    source := source,
    published := (parse_date rfc iso (pyOrOpt it.pubDate it.dcDate)).map isoF }

/-- The link string `parse_atom` extracts for an entry whose chosen link
element has an `href` (or which has no link element at all). -/
def linkOf (e : AtomEntry) : String :=
  match chosenLink e with
  | none => ""
  | some l => strTrim (l.href.getD "")

/-- An Atom `<entry>` survives `parse_atom` iff its stripped title and its
extracted link are both non-empty. -/
def goodAtom (e : AtomEntry) : Bool :=
  !(strTrim e.title == "") && !(linkOf e == "")

/-- The CanonicalItem `parse_atom` builds for a surviving entry. -/
def atomItemOf (rfc iso : String → Option PyDateTime) (isoF : PyDateTime → String)
    (source : String) (e : AtomEntry) : CanonicalItem :=
  { title := strTrim e.title, url := linkOf e, source := source,
    published := (parse_date rfc iso (some (pyOrStr e.published e.updated))).map isoF }

/-- The chosen link element of the entry, when present, carries an `href`
attribute (the condition under which `parse_atom` does not raise). -/
def atomLinkOk (e : AtomEntry) : Prop :=
  ∀ l, chosenLink e = some l → l.href ≠ none

/-!
## Lemmas about the string order
-/

theorem lexLe_total : ∀ a b : List Char, lexLe a b = true ∨ lexLe b a = true
  | [], _ => Or.inl rfl
  | _ :: _, [] => Or.inr rfl
  | a :: as, b :: bs => by
    rcases Nat.lt_trichotomy a.toNat b.toNat with h | h | h
    · left; simp [lexLe, h]
    · have h1 : ¬ a.toNat < b.toNat := by omega
      have h2 : ¬ b.toNat < a.toNat := by omega
      rcases lexLe_total as bs with ih | ih
      · left; simp [lexLe, h1, h2, ih]
      · right; simp [lexLe, h1, h2, ih]
    · right; simp [lexLe, h]

theorem lexLe_trans : ∀ {a b c : List Char},
    lexLe a b = true → lexLe b c = true → lexLe a c = true
  | [], _, _, _, _ => rfl
  | _ :: _, [], _, h1, _ => by simp [lexLe] at h1
  | _ :: _, _ :: _, [], _, h2 => by simp [lexLe] at h2
  | a :: as, b :: bs, c :: cs, h1, h2 => by
    rcases Nat.lt_trichotomy a.toNat c.toNat with hac | hac | hac
    · simp [lexLe, hac]
    · by_cases hab : a.toNat < b.toNat
      · have hcb : c.toNat < b.toNat := by omega
        have hbc : ¬ b.toNat < c.toNat := by omega
        simp [lexLe, hbc, hcb] at h2
      · by_cases hba : b.toNat < a.toNat
        · simp [lexLe, hab, hba] at h1
        · have hbc : ¬ b.toNat < c.toNat := by omega
          have hcb : ¬ c.toNat < b.toNat := by omega
          simp [lexLe, hab, hba] at h1
          simp [lexLe, hbc, hcb] at h2
          have hca : ¬ c.toNat < a.toNat := by omega
          have hacn : ¬ a.toNat < c.toNat := by omega
          simp [lexLe, hacn, hca]
          exact lexLe_trans h1 h2
    · by_cases hab : a.toNat < b.toNat
      · by_cases hbc : b.toNat < c.toNat
        · omega
        · by_cases hcb : c.toNat < b.toNat
          · simp [lexLe, hbc, hcb] at h2
          · omega
      · by_cases hba : b.toNat < a.toNat
        · simp [lexLe, hab, hba] at h1
        · have hbc : ¬ b.toNat < c.toNat := by omega
          have hcb : c.toNat < b.toNat := by omega
          simp [lexLe, hbc, hcb] at h2

theorem strLe_total (a b : String) : strLe a b = true ∨ strLe b a = true :=
  lexLe_total a.data b.data

theorem strLe_trans {a b c : String} (h1 : strLe a b = true) (h2 : strLe b c = true) :
    strLe a c = true :=
  lexLe_trans h1 h2

theorem strLe_empty_left (s : String) : strLe "" s = true := rfl

theorem strLe_empty_right {s : String} (h : strLe s "" = true) : s = "" := by
  cases hs : s.data with
  | nil =>
    cases s with
    | mk data => simp_all
  | cons c cs =>
    exfalso
    have : lexLe (c :: cs) [] = true := by
      have := h
      unfold strLe at this
      rw [hs] at this
      exact this
    simp [lexLe] at this

/-!
## Lemmas about the descending sort
-/

theorem insertByDesc_perm {α : Type} (key : α → String) (x : α) (l : List α) :
    (insertByDesc key x l).Perm (x :: l) := by
  induction l with
  | nil => exact List.Perm.refl _
  | cons y ys ih =>
    simp only [insertByDesc]
    by_cases h : strLe (key y) (key x) = true
    · simp [h]
    · simp only [h, if_false]
      exact (ih.cons y).trans (List.Perm.swap x y ys)

theorem sortByDesc_perm {α : Type} (key : α → String) (l : List α) :
    (sortByDesc key l).Perm l := by
  induction l with
  | nil => exact List.Perm.refl _
  | cons x xs ih =>
    exact (insertByDesc_perm key x (sortByDesc key xs)).trans (ih.cons x)

theorem insertByDesc_pairwise {α : Type} {key : α → String} {x : α} {l : List α}
    (h : l.Pairwise (fun a b => strLe (key b) (key a) = true)) :
    (insertByDesc key x l).Pairwise (fun a b => strLe (key b) (key a) = true) := by
  induction l with
  | nil => simp [insertByDesc]
  | cons y ys ih =>
    rcases List.pairwise_cons.mp h with ⟨hy, hys⟩
    simp only [insertByDesc]
    by_cases hcmp : strLe (key y) (key x) = true
    · simp only [hcmp, if_true]
      refine List.pairwise_cons.mpr ⟨?_, h⟩
      intro z hz
      rcases List.mem_cons.mp hz with rfl | hz
      · exact hcmp
      · exact strLe_trans (hy z hz) hcmp
    · simp only [hcmp, if_false]
      refine List.pairwise_cons.mpr ⟨?_, ih hys⟩
      intro z hz
      have hz' := (insertByDesc_perm key x ys).mem_iff.mp hz
      rcases List.mem_cons.mp hz' with rfl | hz'
      · rcases strLe_total (key y) (key z) with h' | h'
        · exact absurd h' hcmp
        · exact h'
      · exact hy z hz'

theorem sortByDesc_pairwise {α : Type} (key : α → String) (l : List α) :
    (sortByDesc key l).Pairwise (fun a b => strLe (key b) (key a) = true) := by
  induction l with
  | nil => simp [sortByDesc]
  | cons x xs ih => exact insertByDesc_pairwise ih

/-!
## Lemmas about `dedupe_items`
-/

theorem dedupeGo_sublist (seen : List String) :
    ∀ items : List CanonicalItem, (dedupeGo seen items).Sublist items := by
  intro items
  induction items generalizing seen with
  | nil => simp [dedupeGo]
  | cons i rest ih =>
    simp only [dedupeGo]
    by_cases h : itemKey i ∈ seen
    · simp only [h, if_true]
      exact (ih seen).trans (List.sublist_cons_self i rest)
    · simp only [h, if_false]
      exact (ih (itemKey i :: seen)).cons₂ i

theorem dedupeGo_key_mem (seen : List String) (items : List CanonicalItem)
    (k : String) :
    k ∈ (dedupeGo seen items).map itemKey ↔
      k ∉ seen ∧ k ∈ items.map itemKey := by
  induction items generalizing seen with
  | nil => simp [dedupeGo]
  | cons i rest ih =>
    simp only [dedupeGo]
    by_cases h : itemKey i ∈ seen
    · simp only [h, if_true]
      rw [ih]
      simp only [List.map_cons, List.mem_cons]
      constructor
      · rintro ⟨hk, hmem⟩; exact ⟨hk, Or.inr hmem⟩
      · rintro ⟨hk, hcase | hmem⟩
        · subst hcase; exact absurd h hk
        · exact ⟨hk, hmem⟩
    · simp only [h, if_false, List.map_cons, List.mem_cons]
      rw [ih]
      simp only [List.mem_cons]
      constructor
      · rintro (rfl | ⟨hk, hmem⟩)
        · exact ⟨h, Or.inl rfl⟩
        · exact ⟨fun hs => hk (Or.inr hs), Or.inr hmem⟩
      · rintro ⟨hk, rfl | hmem⟩
        · exact Or.inl rfl
        · by_cases hik : k = itemKey i
          · exact Or.inl hik
          · exact Or.inr ⟨fun hs => hs.elim (fun h' => hik h') hk, hmem⟩

theorem dedupeGo_key_nodup (seen : List String) (items : List CanonicalItem) :
    ((dedupeGo seen items).map itemKey).Nodup := by
  induction items generalizing seen with
  | nil => simp [dedupeGo]
  | cons i rest ih =>
    simp only [dedupeGo]
    by_cases h : itemKey i ∈ seen
    · simp only [h, if_true]; exact ih seen
    · simp only [h, if_false, List.map_cons]
      refine List.nodup_cons.mpr ⟨?_, ih (itemKey i :: seen)⟩
      intro hmem
      exact ((dedupeGo_key_mem _ _ _).mp hmem).1 (List.mem_cons_self _ _)

theorem dedupeGo_first (seen : List String) (items : List CanonicalItem)
    (i : CanonicalItem) (hmem : i ∈ dedupeGo seen items) :
    items.find? (fun x => itemKey x == itemKey i) = some i := by
  induction items generalizing seen with
  | nil => simp [dedupeGo] at hmem
  | cons j rest ih =>
    have hkey : itemKey i ∉ seen := by
      have : itemKey i ∈ (dedupeGo seen (j :: rest)).map itemKey :=
        List.mem_map_of_mem itemKey hmem
      exact ((dedupeGo_key_mem _ _ _).mp this).1
    simp only [dedupeGo] at hmem
    by_cases h : itemKey j ∈ seen
    · simp only [h, if_true] at hmem
      have hne : itemKey j ≠ itemKey i := fun he => hkey (he ▸ h)
      rw [List.find?_cons_of_neg, ih seen hmem]
      simp [hne]
    · simp only [h, if_false, List.mem_cons] at hmem
      rcases hmem with rfl | hmem
      · rw [List.find?_cons_of_pos]
        simp
      · have hkey' : itemKey i ∉ itemKey j :: seen := by
          have : itemKey i ∈ (dedupeGo (itemKey j :: seen) rest).map itemKey :=
            List.mem_map_of_mem itemKey hmem
          exact ((dedupeGo_key_mem _ _ _).mp this).1
        have hne : itemKey j ≠ itemKey i := by
          intro he
          exact hkey' (he ▸ List.mem_cons_self _ _)
        rw [List.find?_cons_of_neg, ih (itemKey j :: seen) hmem]
        simp [hne]

/-!
## Lemmas about association-list primitives
-/

theorem alookup_append {β : Type} (k : String) (l1 l2 : List (String × β)) :
    alookup k (l1 ++ l2) =
      match alookup k l1 with
      | some v => some v
      | none => alookup k l2 := by
  induction l1 with
  | nil => simp [alookup]
  | cons p ps ih =>
    simp only [List.cons_append, alookup]
    by_cases h : p.1 = k <;> simp [h, ih]

theorem alookup_eq_none {β : Type} (k : String) (l : List (String × β)) :
    alookup k l = none ↔ k ∉ l.map Prod.fst := by
  induction l with
  | nil => simp [alookup]
  | cons p ps ih =>
    simp only [alookup, List.map_cons, List.mem_cons]
    by_cases h : p.1 = k
    · subst h
      simp
    · simp only [h, if_false, ih]
      constructor
      · rintro hn (hc | hc)
        · exact h hc.symm
        · exact hn hc
      · exact fun hn hc => hn (Or.inr hc)

theorem alookup_isSome {β : Type} (k : String) (l : List (String × β)) :
    (alookup k l).isSome = true ↔ k ∈ l.map Prod.fst := by
  rw [← Option.ne_none_iff_isSome, ne_eq, alookup_eq_none]
  simp

theorem alookup_of_not_isSome {β : Type} {k : String} {l : List (String × β)}
    (h : ¬ (alookup k l).isSome = true) : alookup k l = none := by
  cases hr : alookup k l with
  | none => rfl
  | some v => rw [hr] at h; simp at h

theorem alookup_mem {β : Type} {k : String} {l : List (String × β)} {v : β}
    (h : alookup k l = some v) : (k, v) ∈ l := by
  induction l with
  | nil => simp [alookup] at h
  | cons p ps ih =>
    simp only [alookup] at h
    by_cases hp : p.1 = k
    · simp only [hp, if_true, Option.some.injEq] at h
      subst h
      rcases p with ⟨a, b⟩
      simp_all
    · simp only [hp, if_false] at h
      exact List.mem_cons_of_mem _ (ih h)

theorem alookup_map_update_self {β : Type} (r : List (String × β)) (g : β → β)
    (d : String) :
    alookup d (r.map (fun p => if p.1 = d then (p.1, g p.2) else p)) =
      (alookup d r).map g := by
  induction r with
  | nil => rfl
  | cons p ps ih =>
    by_cases hp : p.1 = d <;> simp [alookup, hp, ih]

theorem alookup_map_update_ne {β : Type} (r : List (String × β)) (g : β → β)
    {d d' : String} (h : d' ≠ d) :
    alookup d' (r.map (fun p => if p.1 = d then (p.1, g p.2) else p)) =
      alookup d' r := by
  induction r with
  | nil => rfl
  | cons p ps ih =>
    by_cases hp : p.1 = d
    · have hdd : ¬ d = d' := fun he => h he.symm
      simp [alookup, hp, hdd, ih]
    · simp [alookup, hp, ih]

theorem keys_map_update {β : Type} (r : List (String × β)) (g : β → β) (d : String) :
    (r.map (fun p => if p.1 = d then (p.1, g p.2) else p)).map Prod.fst =
      r.map Prod.fst := by
  rw [List.map_map]
  apply List.map_congr_left
  intro p _
  by_cases h : p.1 = d <;> simp [h]

theorem alookup_setField_self (r : DayRec) (k : String) (v : JVal) :
    alookup k (setField r k v) = some v := by
  unfold setField
  by_cases hs : (alookup k r).isSome = true
  · rw [if_pos hs, alookup_map_update_self r (fun _ => v) k]
    rcases Option.isSome_iff_exists.mp hs with ⟨w, hw⟩
    rw [hw]; rfl
  · rw [if_neg hs, alookup_append, alookup_of_not_isSome hs]
    simp [alookup]

theorem alookup_setField_ne (r : DayRec) {k k' : String} (v : JVal) (h : k' ≠ k) :
    alookup k' (setField r k v) = alookup k' r := by
  unfold setField
  by_cases hs : (alookup k r).isSome = true
  · rw [if_pos hs, alookup_map_update_ne r (fun _ => v) h]
  · rw [if_neg hs, alookup_append]
    have hkk : ¬ k = k' := fun he => h he.symm
    cases hr : alookup k' r <;> simp [alookup, hkk]

theorem isSome_alookup_setField {r : DayRec} {k : String} (k' : String) (v : JVal)
    (h : (alookup k r).isSome = true) :
    (alookup k (setField r k' v)).isSome = true := by
  by_cases he : k = k'
  · subst he; rw [alookup_setField_self]; rfl
  · rw [alookup_setField_ne _ _ (fun hx => he hx)]; exact h

theorem alookup_setFields_not_mem {kvs : List (String × JVal)} :
    ∀ {r : DayRec} {k : String}, k ∉ kvs.map Prod.fst →
      alookup k (setFields r kvs) = alookup k r := by
  induction kvs with
  | nil => intro r k _; rfl
  | cons kv rest ih =>
    intro r k h
    simp only [List.map_cons, List.mem_cons] at h
    push_neg at h
    show alookup k (setFields (setField r kv.1 kv.2) rest) = alookup k r
    rw [ih h.2, alookup_setField_ne _ _ h.1]

theorem isSome_alookup_setFields_of_isSome {kvs : List (String × JVal)} :
    ∀ {r : DayRec} {k : String}, (alookup k r).isSome = true →
      (alookup k (setFields r kvs)).isSome = true := by
  induction kvs with
  | nil => intro r k h; exact h
  | cons kv rest ih =>
    intro r k h
    exact ih (isSome_alookup_setField kv.1 kv.2 h)

theorem isSome_alookup_setFields_mem {kvs : List (String × JVal)} :
    ∀ {r : DayRec} {k : String}, k ∈ kvs.map Prod.fst →
      (alookup k (setFields r kvs)).isSome = true := by
  induction kvs with
  | nil => intro r k h; simp at h
  | cons kv rest ih =>
    intro r k h
    by_cases hrest : k ∈ rest.map Prod.fst
    · exact ih hrest
    · have hk : k = kv.1 := by
        simp only [List.map_cons, List.mem_cons] at h
        exact h.resolve_right hrest
      subst hk
      show (alookup kv.1 (setFields (setField r kv.1 kv.2) rest)).isSome = true
      rw [alookup_setFields_not_mem hrest, alookup_setField_self]
      rfl

theorem alookup_setFields_mem_nodup {kvs : List (String × JVal)} :
    ∀ {r : DayRec} {k : String} {v : JVal}, (k, v) ∈ kvs →
      (kvs.map Prod.fst).Nodup → alookup k (setFields r kvs) = some v := by
  induction kvs with
  | nil => intro r k v h _; simp at h
  | cons kv rest ih =>
    intro r k v hmem hnd
    rcases List.mem_cons.mp hmem with rfl | hmem
    · have hnot : k ∉ rest.map Prod.fst := (List.nodup_cons.mp hnd).1
      show alookup k (setFields (setField r k v) rest) = some v
      rw [alookup_setFields_not_mem hnot, alookup_setField_self]
    · exact ih hmem (List.nodup_cons.mp hnd).2

theorem alookup_setDD_self (dd : DailyData) (d k : String) (v : JVal) :
    alookup d (setDD dd d k v) = (alookup d dd).map (fun r => setField r k v) := by
  unfold setDD
  exact alookup_map_update_self dd (fun r => setField r k v) d

theorem alookup_setDD_ne (dd : DailyData) {d d' : String} (k : String) (v : JVal)
    (h : d' ≠ d) : alookup d' (setDD dd d k v) = alookup d' dd := by
  unfold setDD
  exact alookup_map_update_ne dd (fun r => setField r k v) h

theorem keys_setDD (dd : DailyData) (d k : String) (v : JVal) :
    (setDD dd d k v).map Prod.fst = dd.map Prod.fst := by
  unfold setDD
  exact keys_map_update dd (fun r => setField r k v) d

theorem alookup_ensureDate_isSome (dd : DailyData) (d : String) :
    (alookup d (ensureDate dd d)).isSome = true := by
  unfold ensureDate
  by_cases h : (alookup d dd).isSome = true
  · rw [if_pos h]; exact h
  · rw [if_neg h, alookup_append, alookup_of_not_isSome h]
    simp [alookup]

theorem alookup_ensureDate_ne (dd : DailyData) {d d' : String} (h : d' ≠ d) :
    alookup d' (ensureDate dd d) = alookup d' dd := by
  unfold ensureDate
  by_cases hs : (alookup d dd).isSome = true
  · rw [if_pos hs]
  · rw [if_neg hs, alookup_append]
    have hdd : ¬ d = d' := fun he => h he.symm
    cases hr : alookup d' dd <;> simp [alookup, hdd]

theorem alookup_ensureDate_pres {dd : DailyData} {d' : String} {r : DayRec}
    (d : String) (h : alookup d' dd = some r) :
    alookup d' (ensureDate dd d) = some r := by
  unfold ensureDate
  by_cases hs : (alookup d dd).isSome = true
  · rw [if_pos hs]; exact h
  · rw [if_neg hs, alookup_append, h]

theorem keys_ensureDate_nodup {dd : DailyData} (d : String)
    (h : (dd.map Prod.fst).Nodup) : ((ensureDate dd d).map Prod.fst).Nodup := by
  unfold ensureDate
  by_cases hs : (alookup d dd).isSome = true
  · rw [if_pos hs]; exact h
  · rw [if_neg hs]
    have hd : d ∉ dd.map Prod.fst :=
      (alookup_eq_none d dd).mp (alookup_of_not_isSome hs)
    simp only [List.map_append, List.map_cons, List.map_nil]
    rw [List.nodup_append]
    refine ⟨h, List.nodup_singleton d, ?_⟩
    intro a ha hb
    rcases List.mem_singleton.mp hb
    exact hd ha

theorem alookup_setAllDD_self (kvs : List (String × JVal)) :
    ∀ (dd : DailyData) (d : String),
      alookup d (setAllDD dd d kvs) = (alookup d dd).map (fun r => setFields r kvs) := by
  induction kvs with
  | nil =>
    intro dd d
    show alookup d dd = (alookup d dd).map (fun r => r)
    cases alookup d dd <;> rfl
  | cons kv rest ih =>
    intro dd d
    show alookup d (setAllDD (setDD dd d kv.1 kv.2) d rest) = _
    rw [ih, alookup_setDD_self]
    cases alookup d dd <;> rfl

theorem alookup_setAllDD_ne (kvs : List (String × JVal)) :
    ∀ (dd : DailyData) {d d' : String}, d' ≠ d →
      alookup d' (setAllDD dd d kvs) = alookup d' dd := by
  induction kvs with
  | nil => intro dd d d' _; rfl
  | cons kv rest ih =>
    intro dd d d' h
    show alookup d' (setAllDD (setDD dd d kv.1 kv.2) d rest) = _
    rw [ih _ h, alookup_setDD_ne _ _ _ h]

theorem keys_setAllDD (kvs : List (String × JVal)) :
    ∀ (dd : DailyData) (d : String),
      (setAllDD dd d kvs).map Prod.fst = dd.map Prod.fst := by
  induction kvs with
  | nil => intro dd d; rfl
  | cons kv rest ih =>
    intro dd d
    show (setAllDD (setDD dd d kv.1 kv.2) d rest).map Prod.fst = _
    rw [ih, keys_setDD]

/-!
## Presence and value lemmas for the date-keyed merge
-/

theorem hasF_setDD_mono (d' k' : String) (v : JVal) {dd : DailyData} {d k : String}
    (h : hasF dd d k = true) : hasF (setDD dd d' k' v) d k = true := by
  unfold hasF getF at h ⊢
  by_cases hd : d' = d
  · subst hd
    rw [alookup_setDD_self]
    cases hr : alookup d' dd with
    | none => rw [hr] at h; exact Bool.noConfusion h
    | some r =>
      rw [hr] at h
      exact isSome_alookup_setField k' v h
  · rw [alookup_setDD_ne _ _ _ (fun he => hd he.symm)]
    exact h

theorem hasF_ensureDate_mono (d' : String) {dd : DailyData} {d k : String}
    (h : hasF dd d k = true) : hasF (ensureDate dd d') d k = true := by
  unfold hasF getF at h ⊢
  cases hr : alookup d dd with
  | none => rw [hr] at h; exact Bool.noConfusion h
  | some r =>
    rw [alookup_ensureDate_pres d' hr]
    rw [hr] at h
    exact h

theorem hasF_setAllDD_mono (d' : String) (kvs : List (String × JVal))
    {dd : DailyData} {d k : String} (h : hasF dd d k = true) :
    hasF (setAllDD dd d' kvs) d k = true := by
  induction kvs generalizing dd with
  | nil => exact h
  | cons kv rest ih =>
    show hasF (setAllDD (setDD dd d' kv.1 kv.2) d' rest) d k = true
    exact ih (hasF_setDD_mono d' kv.1 kv.2 h)

theorem hasF_setAllDD_self {dd : DailyData} {d : String}
    (kvs : List (String × JVal)) (hd : (alookup d dd).isSome = true) {k : String}
    (hk : k ∈ kvs.map Prod.fst) : hasF (setAllDD dd d kvs) d k = true := by
  unfold hasF getF
  rw [alookup_setAllDD_self]
  rcases Option.isSome_iff_exists.mp hd with ⟨r, hr⟩
  rw [hr]
  exact isSome_alookup_setFields_mem hk

theorem hasF_applyGroup_mono {σ : Type} (dateOf : σ → String)
    (fields : σ → List (String × JVal)) (item : σ) {dd : DailyData} {d k : String}
    (h : hasF dd d k = true) : hasF (applyGroup dateOf fields dd item) d k = true := by
  unfold applyGroup
  by_cases hdate : dateOf item = ""
  · rw [if_pos hdate]; exact h
  · rw [if_neg hdate]
    exact hasF_setAllDD_mono _ _ (hasF_ensureDate_mono _ h)

theorem hasF_addBatch_mono {σ : Type} (dateOf : σ → String)
    (fields : σ → List (String × JVal)) (batch : List σ) {dd : DailyData}
    {d k : String} (h : hasF dd d k = true) :
    hasF (addBatch dateOf fields dd batch) d k = true := by
  induction batch generalizing dd with
  | nil => exact h
  | cons x rest ih =>
    show hasF (addBatch dateOf fields (applyGroup dateOf fields dd x) rest) d k = true
    exact ih (hasF_applyGroup_mono dateOf fields x h)

theorem hasF_applyGroup_self {σ : Type} (dateOf : σ → String)
    (fields : σ → List (String × JVal)) (dd : DailyData) (item : σ)
    (hd : dateOf item ≠ "") {k : String} (hk : k ∈ (fields item).map Prod.fst) :
    hasF (applyGroup dateOf fields dd item) (dateOf item) k = true := by
  unfold applyGroup
  rw [if_neg hd]
  exact hasF_setAllDD_self _ (alookup_ensureDate_isSome dd (dateOf item)) hk

theorem hasF_addBatch_establish {σ : Type} (dateOf : σ → String)
    (fields : σ → List (String × JVal)) {batch : List σ} {item : σ}
    (hmem : item ∈ batch) (hd : dateOf item ≠ "") {k : String}
    (hk : k ∈ (fields item).map Prod.fst) (dd : DailyData) :
    hasF (addBatch dateOf fields dd batch) (dateOf item) k = true := by
  induction batch generalizing dd with
  | nil => simp at hmem
  | cons x rest ih =>
    rcases List.mem_cons.mp hmem with rfl | hmem
    · show hasF (addBatch dateOf fields (applyGroup dateOf fields dd item) rest) _ k = true
      exact hasF_addBatch_mono dateOf fields rest (hasF_applyGroup_self dateOf fields dd item hd hk)
    · exact ih hmem _

theorem getF_setDD_pres (d' : String) {k' : String} (w : JVal) {dd : DailyData}
    {d k : String} {v : JVal} (h : getF dd d k = some v) (hne : k' ≠ k) :
    getF (setDD dd d' k' w) d k = some v := by
  unfold getF at h ⊢
  by_cases hd : d' = d
  · subst hd
    rw [alookup_setDD_self]
    cases hr : alookup d' dd with
    | none => rw [hr] at h; exact Option.noConfusion h
    | some r =>
      rw [hr] at h
      show alookup k (setField r k' w) = some v
      rw [alookup_setField_ne _ _ (fun he => hne he.symm)]
      exact h
  · rw [alookup_setDD_ne _ _ _ (fun he => hd he.symm)]
    exact h

theorem getF_ensureDate_pres (d' : String) {dd : DailyData} {d k : String} {v : JVal}
    (h : getF dd d k = some v) : getF (ensureDate dd d') d k = some v := by
  unfold getF at h ⊢
  cases hr : alookup d dd with
  | none => rw [hr] at h; exact Option.noConfusion h
  | some r =>
    rw [alookup_ensureDate_pres d' hr]
    rw [hr] at h
    exact h

theorem getF_setAllDD_pres (d' : String) (kvs : List (String × JVal))
    {dd : DailyData} {d k : String} {v : JVal} (h : getF dd d k = some v)
    (hne : k ∉ kvs.map Prod.fst) : getF (setAllDD dd d' kvs) d k = some v := by
  induction kvs generalizing dd with
  | nil => exact h
  | cons kv rest ih =>
    simp only [List.map_cons, List.mem_cons] at hne
    push_neg at hne
    show getF (setAllDD (setDD dd d' kv.1 kv.2) d' rest) d k = some v
    exact ih (getF_setDD_pres d' kv.2 h (fun he => hne.1 he.symm)) hne.2

theorem getF_applyGroup_pres {σ : Type} (dateOf : σ → String)
    (fields : σ → List (String × JVal)) (item : σ) {dd : DailyData}
    {d k : String} {v : JVal} (h : getF dd d k = some v)
    (hne : k ∉ (fields item).map Prod.fst) :
    getF (applyGroup dateOf fields dd item) d k = some v := by
  unfold applyGroup
  by_cases hdate : dateOf item = ""
  · rw [if_pos hdate]; exact h
  · rw [if_neg hdate]
    exact getF_setAllDD_pres _ _ (getF_ensureDate_pres _ h) hne

theorem getF_addBatch_pres {σ : Type} (dateOf : σ → String)
    (fields : σ → List (String × JVal)) (batch : List σ) {dd : DailyData}
    {d k : String} {v : JVal} (h : getF dd d k = some v)
    (hne : ∀ item ∈ batch, k ∉ (fields item).map Prod.fst) :
    getF (addBatch dateOf fields dd batch) d k = some v := by
  induction batch generalizing dd with
  | nil => exact h
  | cons x rest ih =>
    show getF (addBatch dateOf fields (applyGroup dateOf fields dd x) rest) d k = some v
    exact ih (getF_applyGroup_pres dateOf fields x h (hne x (List.mem_cons_self x rest)))
      (fun i hi => hne i (List.mem_cons_of_mem x hi))

theorem keys_applyGroup_nodup {σ : Type} (dateOf : σ → String)
    (fields : σ → List (String × JVal)) (dd : DailyData) (item : σ)
    (h : (dd.map Prod.fst).Nodup) :
    ((applyGroup dateOf fields dd item).map Prod.fst).Nodup := by
  unfold applyGroup
  by_cases hdate : dateOf item = ""
  · rw [if_pos hdate]; exact h
  · rw [if_neg hdate, keys_setAllDD]
    exact keys_ensureDate_nodup _ h

theorem keys_addBatch_nodup {σ : Type} (dateOf : σ → String)
    (fields : σ → List (String × JVal)) (batch : List σ) {dd : DailyData}
    (h : (dd.map Prod.fst).Nodup) :
    ((addBatch dateOf fields dd batch).map Prod.fst).Nodup := by
  induction batch generalizing dd with
  | nil => exact h
  | cons x rest ih =>
    show ((addBatch dateOf fields (applyGroup dateOf fields dd x) rest).map Prod.fst).Nodup
    exact ih (keys_applyGroup_nodup dateOf fields dd x h)

/-!
## Lemmas about `sleep_by_date`
-/

theorem alookup_append_some {β : Type} {k : String} {l1 : List (String × β)} {v : β}
    (l2 : List (String × β)) (h : alookup k l1 = some v) :
    alookup k (l1 ++ l2) = some v := by
  rw [alookup_append, h]

theorem alookup_append_none {β : Type} {k : String} {l1 : List (String × β)}
    (l2 : List (String × β)) (h : alookup k l1 = none) :
    alookup k (l1 ++ l2) = alookup k l2 := by
  rw [alookup_append, h]

theorem sbStep_date_empty {acc : List (String × SleepPeriodItem)}
    {item : SleepPeriodItem} (h : item.date = "") : sbStep acc item = acc := by
  unfold sbStep
  rw [if_pos h]

theorem sbStep_new {acc : List (String × SleepPeriodItem)} {item : SleepPeriodItem}
    (hd : item.date ≠ "") (h : alookup item.date acc = none) :
    sbStep acc item = acc ++ [(item.date, item)] := by
  unfold sbStep
  rw [if_neg hd, h]

theorem sbStep_replace {acc : List (String × SleepPeriodItem)}
    {item prev : SleepPeriodItem} (hd : item.date ≠ "")
    (h : alookup item.date acc = some prev) (hc : spDur prev < spDur item) :
    sbStep acc item = acc.map (fun p => if p.1 = item.date then (p.1, item) else p) := by
  unfold sbStep
  rw [if_neg hd, h]
  show (if spDur prev < spDur item then
      acc.map (fun p => if p.1 = item.date then (p.1, item) else p) else acc) = _
  rw [if_pos hc]

theorem sbStep_keep {acc : List (String × SleepPeriodItem)}
    {item prev : SleepPeriodItem} (hd : item.date ≠ "")
    (h : alookup item.date acc = some prev) (hc : ¬ spDur prev < spDur item) :
    sbStep acc item = acc := by
  unfold sbStep
  rw [if_neg hd, h]
  show (if spDur prev < spDur item then
      acc.map (fun p => if p.1 = item.date then (p.1, item) else p) else acc) = _
  rw [if_neg hc]

theorem sbStep_keys_ne {acc : List (String × SleepPeriodItem)} (item : SleepPeriodItem)
    (hacc : ∀ e ∈ acc, e.1 ≠ "") : ∀ e ∈ sbStep acc item, e.1 ≠ "" := by
  by_cases hd : item.date = ""
  · rw [sbStep_date_empty hd]; exact hacc
  · cases hl : alookup item.date acc with
    | none =>
      rw [sbStep_new hd hl]
      intro e he
      rcases List.mem_append.mp he with he | he
      · exact hacc e he
      · rcases List.mem_singleton.mp he
        exact hd
    | some prev =>
      by_cases hc : spDur prev < spDur item
      · rw [sbStep_replace hd hl hc]
        intro e he
        rcases List.mem_map.mp he with ⟨p, hp, rfl⟩
        by_cases hpe : p.1 = item.date
        · simpa [hpe] using hacc p hp
        · simpa [hpe] using hacc p hp
      · rw [sbStep_keep hd hl hc]; exact hacc

theorem sbStep_keys_nodup {acc : List (String × SleepPeriodItem)}
    (item : SleepPeriodItem) (h : (acc.map Prod.fst).Nodup) :
    ((sbStep acc item).map Prod.fst).Nodup := by
  by_cases hd : item.date = ""
  · rw [sbStep_date_empty hd]; exact h
  · cases hl : alookup item.date acc with
    | none =>
      rw [sbStep_new hd hl]
      have hnot : item.date ∉ acc.map Prod.fst := (alookup_eq_none _ _).mp hl
      simp only [List.map_append, List.map_cons, List.map_nil]
      rw [List.nodup_append]
      refine ⟨h, List.nodup_singleton _, ?_⟩
      intro a ha hb
      rcases List.mem_singleton.mp hb
      exact hnot ha
    | some prev =>
      by_cases hc : spDur prev < spDur item
      · rw [sbStep_replace hd hl hc, keys_map_update acc (fun _ => item) item.date]
        exact h
      · rw [sbStep_keep hd hl hc]; exact h

theorem sbStep_pres_dom {acc : List (String × SleepPeriodItem)} {d : String}
    {p : SleepPeriodItem} (x : SleepPeriodItem) (hp : alookup d acc = some p) :
    ∃ w, alookup d (sbStep acc x) = some w ∧ spDur p ≤ spDur w := by
  by_cases hd : x.date = ""
  · exact ⟨p, by rw [sbStep_date_empty hd]; exact hp, le_refl _⟩
  · cases hl : alookup x.date acc with
    | none =>
      refine ⟨p, ?_, le_refl _⟩
      rw [sbStep_new hd hl]
      exact alookup_append_some _ hp
    | some prev =>
      by_cases hc : spDur prev < spDur x
      · by_cases hdx : d = x.date
        · subst hdx
          refine ⟨x, ?_, ?_⟩
          · rw [sbStep_replace hd hl hc, alookup_map_update_self acc (fun _ => x) x.date, hp]
            rfl
          · have hpp : p = prev := by
              have h2 := hp.symm.trans hl
              injection h2
            rw [hpp]
            exact le_of_lt hc
        · refine ⟨p, ?_, le_refl _⟩
          rw [sbStep_replace hd hl hc, alookup_map_update_ne acc (fun _ => x) hdx]
          exact hp
      · exact ⟨p, by rw [sbStep_keep hd hl hc]; exact hp, le_refl _⟩

theorem sbStep_dominates (acc : List (String × SleepPeriodItem)) (x : SleepPeriodItem)
    (hd : x.date ≠ "") :
    ∃ w, alookup x.date (sbStep acc x) = some w ∧ spDur x ≤ spDur w := by
  cases hl : alookup x.date acc with
  | none =>
    refine ⟨x, ?_, le_refl _⟩
    rw [sbStep_new hd hl, alookup_append_none _ hl]
    simp [alookup]
  | some prev =>
    by_cases hc : spDur prev < spDur x
    · refine ⟨x, ?_, le_refl _⟩
      rw [sbStep_replace hd hl hc, alookup_map_update_self acc (fun _ => x) x.date, hl]
      rfl
    · exact ⟨prev, by rw [sbStep_keep hd hl hc]; exact hl, le_of_not_lt hc⟩

theorem sbStep_lookup_cases {acc : List (String × SleepPeriodItem)}
    {x : SleepPeriodItem} {d : String} {it : SleepPeriodItem}
    (h : alookup d (sbStep acc x) = some it) :
    alookup d acc = some it ∨ (it = x ∧ x.date = d) := by
  by_cases hd : x.date = ""
  · rw [sbStep_date_empty hd] at h; exact Or.inl h
  · cases hl : alookup x.date acc with
    | none =>
      rw [sbStep_new hd hl] at h
      cases hacc : alookup d acc with
      | some p =>
        rw [alookup_append_some _ hacc] at h
        exact Or.inl h
      | none =>
        rw [alookup_append_none _ hacc] at h
        simp only [alookup] at h
        by_cases hdx : x.date = d
        · rw [if_pos hdx] at h
          injection h with h2
          exact Or.inr ⟨h2.symm, hdx⟩
        · rw [if_neg hdx] at h
          exact Option.noConfusion h
    | some prev =>
      by_cases hc : spDur prev < spDur x
      · rw [sbStep_replace hd hl hc] at h
        by_cases hdx : d = x.date
        · subst hdx
          rw [alookup_map_update_self acc (fun _ => x) x.date, hl] at h
          injection h with h2
          exact Or.inr ⟨h2.symm, rfl⟩
        · rw [alookup_map_update_ne acc (fun _ => x) hdx] at h
          exact Or.inl h
      · rw [sbStep_keep hd hl hc] at h; exact Or.inl h

theorem sbStep_pres_isSome {acc : List (String × SleepPeriodItem)} {d : String}
    (x : SleepPeriodItem) (h : (alookup d acc).isSome = true) :
    (alookup d (sbStep acc x)).isSome = true := by
  rcases Option.isSome_iff_exists.mp h with ⟨p, hp⟩
  rcases sbStep_pres_dom x hp with ⟨w, hw, _⟩
  rw [hw]; rfl

theorem sbStep_self_isSome {acc : List (String × SleepPeriodItem)}
    (x : SleepPeriodItem) (hd : x.date ≠ "") :
    (alookup x.date (sbStep acc x)).isSome = true := by
  rcases sbStep_dominates acc x hd with ⟨w, hw, _⟩
  rw [hw]; rfl

theorem sbFold_pres_isSome : ∀ (batch : List SleepPeriodItem)
    (acc : List (String × SleepPeriodItem)) {d : String},
    (alookup d acc).isSome = true →
    (alookup d (batch.foldl sbStep acc)).isSome = true := by
  intro batch
  induction batch with
  | nil => intro acc d h; exact h
  | cons x rest ih =>
    intro acc d h
    exact ih (sbStep acc x) (sbStep_pres_isSome x h)

theorem sbFold_establish : ∀ (batch : List SleepPeriodItem)
    (acc : List (String × SleepPeriodItem)) {i : SleepPeriodItem},
    i ∈ batch → i.date ≠ "" →
    (alookup i.date (batch.foldl sbStep acc)).isSome = true := by
  intro batch
  induction batch with
  | nil => intro acc i h; simp at h
  | cons x rest ih =>
    intro acc i hmem hd
    rcases List.mem_cons.mp hmem with rfl | hmem
    · exact sbFold_pres_isSome rest (sbStep acc i) (sbStep_self_isSome i hd)
    · exact ih (sbStep acc x) hmem hd

theorem sleepByDate_isSome {batch : List SleepPeriodItem} {i : SleepPeriodItem}
    (hmem : i ∈ batch) (hd : i.date ≠ "") :
    (alookup i.date (sleepByDate batch)).isSome = true :=
  sbFold_establish batch [] hmem hd

theorem sleepByDate_keys_nodup (batch : List SleepPeriodItem) :
    ((sleepByDate batch).map Prod.fst).Nodup := by
  have hgen : ∀ (b : List SleepPeriodItem) (acc : List (String × SleepPeriodItem)),
      (acc.map Prod.fst).Nodup → ((b.foldl sbStep acc).map Prod.fst).Nodup := by
    intro b
    induction b with
    | nil => intro acc h; exact h
    | cons x rest ih => intro acc h; exact ih (sbStep acc x) (sbStep_keys_nodup x h)
  exact hgen batch [] (by simp)

theorem sbFold_keys_ne : ∀ (batch : List SleepPeriodItem)
    (acc : List (String × SleepPeriodItem)), (∀ e ∈ acc, e.1 ≠ "") →
    ∀ e ∈ batch.foldl sbStep acc, e.1 ≠ "" := by
  intro batch
  induction batch with
  | nil => intro acc hacc; exact hacc
  | cons x rest ih =>
    intro acc hacc
    exact ih (sbStep acc x) (sbStep_keys_ne x hacc)

theorem sbFold_spec : ∀ (batch : List SleepPeriodItem)
    (acc : List (String × SleepPeriodItem)), (∀ e ∈ acc, e.1 ≠ "") →
    ∀ {d : String} {it : SleepPeriodItem},
    alookup d (batch.foldl sbStep acc) = some it →
    (alookup d acc = some it ∨ (it ∈ batch ∧ it.date = d)) ∧
    (∀ o ∈ batch, o.date = d → spDur o ≤ spDur it) ∧
    (∀ p, alookup d acc = some p → spDur p ≤ spDur it) := by
  intro batch
  induction batch with
  | nil =>
    intro acc _ d it h
    refine ⟨Or.inl h, ?_, ?_⟩
    · intro o ho; exact absurd ho (List.not_mem_nil o)
    · intro p hp
      cases h.symm.trans hp
      exact le_refl _
  | cons x rest ih =>
    intro acc hacc d it h
    have hacc' := sbStep_keys_ne x hacc
    obtain ⟨A, B, C⟩ := ih (sbStep acc x) hacc' h
    have hdne : d ≠ "" := by
      intro hde
      subst hde
      have hm := alookup_mem h
      exact sbFold_keys_ne rest (sbStep acc x) hacc' _ hm rfl
    refine ⟨?_, ?_, ?_⟩
    · rcases A with hA | ⟨hmem, hdate⟩
      · rcases sbStep_lookup_cases hA with hA' | ⟨rfl, hdate⟩
        · exact Or.inl hA'
        · exact Or.inr ⟨List.mem_cons_self _ _, hdate⟩
      · exact Or.inr ⟨List.mem_cons_of_mem x hmem, hdate⟩
    · intro o ho hod
      rcases List.mem_cons.mp ho with rfl | ho
      · have hodne : o.date ≠ "" := by rw [hod]; exact hdne
        rcases sbStep_dominates acc o hodne with ⟨w, hw, hle⟩
        rw [hod] at hw
        exact le_trans hle (C w hw)
      · exact B o ho hod
    · intro p hp
      rcases sbStep_pres_dom x hp with ⟨w, hw, hle⟩
      exact le_trans hle (C w hw)

theorem sleepByDate_spec (batch : List SleepPeriodItem) {d : String}
    {it : SleepPeriodItem} (h : alookup d (sleepByDate batch) = some it) :
    it ∈ batch ∧ it.date = d ∧ ∀ o ∈ batch, o.date = d → spDur o ≤ spDur it := by
  obtain ⟨A, B, _⟩ := sbFold_spec batch [] (by intro e he; simp at he) h
  rcases A with hA | ⟨hmem, hdate⟩
  · simp [alookup] at hA
  · exact ⟨hmem, hdate, B⟩

/-!
## Lemmas about the sleep-period merge fold and `mergeDaily`
-/

theorem spFields_names (i : SleepPeriodItem) : (spFields i).map Prod.fst = spNames := rfl

theorem ssFields_names (i : SleepScoreItem) : (ssFields i).map Prod.fst = ssNames := rfl

theorem rdFields_names (i : ReadinessItem) : (rdFields i).map Prod.fst = rdNames := rfl

theorem acFields_names (i : ActivityItem) : (acFields i).map Prod.fst = acNames := rfl

theorem hrFields_names (i : HeartRateItem) : (hrFields i).map Prod.fst = hrNames := rfl

theorem soFields_names (i : Spo2Item) : (soFields i).map Prod.fst = soNames := rfl

theorem hasF_spFold_mono : ∀ (entries : List (String × SleepPeriodItem))
    {dd : DailyData} {d k : String}, hasF dd d k = true →
    hasF (entries.foldl (fun dd p => setAllDD (ensureDate dd p.1) p.1 (spFields p.2)) dd) d k = true := by
  intro entries
  induction entries with
  | nil => intro dd d k h; exact h
  | cons e rest ih =>
    intro dd d k h
    exact ih (hasF_setAllDD_mono _ _ (hasF_ensureDate_mono _ h))

theorem hasF_spFold_establish : ∀ (entries : List (String × SleepPeriodItem))
    {e : String × SleepPeriodItem}, e ∈ entries →
    ∀ {k : String}, k ∈ (spFields e.2).map Prod.fst → ∀ (dd : DailyData),
    hasF (entries.foldl (fun dd p => setAllDD (ensureDate dd p.1) p.1 (spFields p.2)) dd) e.1 k = true := by
  intro entries
  induction entries with
  | nil => intro e h; simp at h
  | cons x rest ih =>
    intro e hmem k hk dd
    rcases List.mem_cons.mp hmem with rfl | hmem
    · exact hasF_spFold_mono rest
        (hasF_setAllDD_self _ (alookup_ensureDate_isSome dd e.1) hk)
    · exact ih hmem hk _

theorem keys_spFold_nodup : ∀ (entries : List (String × SleepPeriodItem))
    {dd : DailyData}, (dd.map Prod.fst).Nodup →
    (((entries.foldl (fun dd p => setAllDD (ensureDate dd p.1) p.1 (spFields p.2)) dd)).map Prod.fst).Nodup := by
  intro entries
  induction entries with
  | nil => intro dd h; exact h
  | cons e rest ih =>
    intro dd h
    refine ih ?_
    rw [keys_setAllDD]
    exact keys_ensureDate_nodup _ h

theorem spFold_step_eq (dd : DailyData) (e : String × SleepPeriodItem)
    (rest : List (String × SleepPeriodItem)) :
    (e :: rest).foldl (fun dd p => setAllDD (ensureDate dd p.1) p.1 (spFields p.2)) dd =
      rest.foldl (fun dd p => setAllDD (ensureDate dd p.1) p.1 (spFields p.2))
        (setAllDD (ensureDate dd e.1) e.1 (spFields e.2)) := rfl

theorem getF_spFold_other : ∀ (entries : List (String × SleepPeriodItem))
    {dd : DailyData} {d k : String}, (∀ e ∈ entries, e.1 ≠ d) →
    getF (entries.foldl (fun dd p => setAllDD (ensureDate dd p.1) p.1 (spFields p.2)) dd) d k =
      getF dd d k := by
  intro entries
  induction entries with
  | nil => intro dd d k _; rfl
  | cons e rest ih =>
    intro dd d k hne
    rw [spFold_step_eq, ih (fun x hx => hne x (List.mem_cons_of_mem e hx))]
    have hed : d ≠ e.1 := fun he => hne e (List.mem_cons_self e rest) he.symm
    unfold getF
    rw [alookup_setAllDD_ne _ _ hed, alookup_ensureDate_ne _ hed]

set_option maxHeartbeats 1000000 in
theorem spNames_nodup : spNames.Nodup := by decide

theorem getF_setAllDD_eq_of {dd : DailyData} {d : String} {r : DayRec} {k : String}
    (kvs : List (String × JVal)) (hr : alookup d dd = some r) :
    getF (setAllDD dd d kvs) d k = alookup k (setFields r kvs) := by
  unfold getF
  rw [alookup_setAllDD_self, hr]
  rfl

theorem getF_spFold_value : ∀ (entries : List (String × SleepPeriodItem))
    (dd : DailyData) {d : String} {it : SleepPeriodItem} {k : String} {v : JVal},
    alookup d entries = some it → (entries.map Prod.fst).Nodup →
    (k, v) ∈ spFields it →
    getF (entries.foldl (fun dd p => setAllDD (ensureDate dd p.1) p.1 (spFields p.2)) dd) d k =
      some v := by
  intro entries
  induction entries with
  | nil => intro dd d it k v h; simp [alookup] at h
  | cons e rest ih =>
    intro dd d it k v h hnd hkv
    by_cases hed : e.1 = d
    · have hit : e.2 = it := by
        simp only [alookup, hed, if_true] at h
        injection h
      subst hed
      have hrest : ∀ x ∈ rest, x.1 ≠ e.1 := by
        intro x hx he
        have := (List.nodup_cons.mp hnd).1
        exact this (he ▸ List.mem_map_of_mem Prod.fst hx)
      rcases Option.isSome_iff_exists.mp (alookup_ensureDate_isSome dd e.1) with ⟨r, hr⟩
      have h1 : getF ((e :: rest).foldl
            (fun dd p => setAllDD (ensureDate dd p.1) p.1 (spFields p.2)) dd) e.1 k =
          getF (setAllDD (ensureDate dd e.1) e.1 (spFields e.2)) e.1 k := by
        rw [spFold_step_eq, getF_spFold_other rest hrest]
      have h2 : getF (setAllDD (ensureDate dd e.1) e.1 (spFields e.2)) e.1 k =
          alookup k (setFields r (spFields e.2)) := getF_setAllDD_eq_of (spFields e.2) hr
      rw [← hit] at hkv
      have h3 : alookup k (setFields r (spFields e.2)) = some v :=
        alookup_setFields_mem_nodup hkv (by rw [spFields_names]; exact spNames_nodup)
      exact h1.trans (h2.trans h3)
    · simp only [alookup, hed, if_false] at h
      exact ih _ h (List.nodup_cons.mp hnd).2 hkv

theorem mergeDaily_keys_nodup (ds : List SleepScoreItem) (sp : List SleepPeriodItem)
    (rd : List ReadinessItem) (ac : List ActivityItem) (hr : List HeartRateItem)
    (so : List Spo2Item) :
    ((mergeDaily ds sp rd ac hr so).map Prod.fst).Nodup := by
  unfold mergeDaily addSleepPeriods
  apply keys_addBatch_nodup
  apply keys_addBatch_nodup
  apply keys_addBatch_nodup
  apply keys_addBatch_nodup
  apply keys_spFold_nodup
  apply keys_addBatch_nodup
  simp

/-!
## Characterization of the feed parsers
-/

theorem filterMap_guard {α β : Type} (p : α → Bool) (f : α → β) :
    ∀ l : List α,
      l.filterMap (fun a => if p a then some (f a) else none) = (l.filter p).map f := by
  intro l
  induction l with
  | nil => rfl
  | cons a rest ih =>
    rw [List.filterMap_cons, List.filter_cons]
    by_cases hp : p a = true <;> simp [hp, ih]

theorem rss_step_eq (rfc iso : String → Option PyDateTime) (isoF : PyDateTime → String)
    (src : String) (it : RssItemXml) :
    (let title := strTrim (it.title.getD "")
     let link := strTrim (it.link.getD "")
     let published := (parse_date rfc iso (pyOrOpt it.pubDate it.dcDate)).map isoF
     if title = "" || link = "" then none
     else some { title := title, url := link, source := src, published := published }) =
      if goodRss it then some (rssItemOf rfc iso isoF src it) else none := by
  by_cases h1 : strTrim (it.title.getD "") = "" <;>
    by_cases h2 : strTrim (it.link.getD "") = "" <;>
      simp [goodRss, rssItemOf, h1, h2]

theorem parse_rss_eq (rfc iso : String → Option PyDateTime) (isoF : PyDateTime → String)
    (doc : RssDoc) (src : String) :
    parse_rss rfc iso isoF doc src =
      ((doc.channel.getD []).filter goodRss).map (rssItemOf rfc iso isoF src) := by
  unfold parse_rss
  cases doc.channel with
  | none => rfl
  | some xs =>
    have hfun : (fun it : RssItemXml =>
        let title := strTrim (it.title.getD "")
        let link := strTrim (it.link.getD "")
        let published := (parse_date rfc iso (pyOrOpt it.pubDate it.dcDate)).map isoF
        if title = "" || link = "" then none
        else some { title := title, url := link, source := src, published := published }) =
        (fun it => if goodRss it then some (rssItemOf rfc iso isoF src it) else none) :=
      funext fun it => rss_step_eq rfc iso isoF src it
    show xs.filterMap _ = _
    rw [hfun, filterMap_guard goodRss (rssItemOf rfc iso isoF src) xs]
    rfl

theorem atomEntryItem_noLink {e : AtomEntry} (rfc iso : String → Option PyDateTime)
    (isoF : PyDateTime → String) (src : String) (h : chosenLink e = none) :
    atomEntryItem rfc iso isoF src e = Except.ok none := by
  unfold atomEntryItem
  rw [h]

theorem atomEntryItem_noHref {e : AtomEntry} {l : AtomLink}
    (rfc iso : String → Option PyDateTime) (isoF : PyDateTime → String) (src : String)
    (h : chosenLink e = some l) (hh : l.href = none) :
    atomEntryItem rfc iso isoF src e =
      Except.error "AttributeError: NoneType object has no attribute strip" := by
  unfold atomEntryItem
  rw [h]
  show ((match l.href with
        | none => Except.error "AttributeError: NoneType object has no attribute strip"
        | some hstr =>
          let link := strTrim hstr
          let published := (parse_date rfc iso (some (pyOrStr e.published e.updated))).map isoF
          if strTrim e.title = "" || link = "" then Except.ok none
          else Except.ok (some { title := strTrim e.title, url := link, source := src,
                                 published := published })) :
      Except String (Option CanonicalItem)) = _
  rw [hh]

theorem atomEntryItem_href {e : AtomEntry} {l : AtomLink} {hs : String}
    (rfc iso : String → Option PyDateTime) (isoF : PyDateTime → String) (src : String)
    (h : chosenLink e = some l) (hh : l.href = some hs) :
    atomEntryItem rfc iso isoF src e =
      (if strTrim e.title = "" || strTrim hs = "" then Except.ok none
       else Except.ok (some
        { title := strTrim e.title, url := strTrim hs, source := src,
          published := (parse_date rfc iso (some (pyOrStr e.published e.updated))).map isoF })) := by
  unfold atomEntryItem
  rw [h]
  show ((match l.href with
        | none => Except.error "AttributeError: NoneType object has no attribute strip"
        | some hstr =>
          let link := strTrim hstr
          let published := (parse_date rfc iso (some (pyOrStr e.published e.updated))).map isoF
          if strTrim e.title = "" || link = "" then Except.ok none
          else Except.ok (some { title := strTrim e.title, url := link, source := src,
                                 published := published })) :
      Except String (Option CanonicalItem)) = _
  rw [hh]

theorem parse_atom_cons (rfc iso : String → Option PyDateTime)
    (isoF : PyDateTime → String) (e : AtomEntry) (rest : List AtomEntry)
    (src : String) :
    parse_atom rfc iso isoF (e :: rest) src =
      (match atomEntryItem rfc iso isoF src e with
       | Except.error msg => Except.error msg
       | Except.ok r =>
         match parse_atom rfc iso isoF rest src with
         | Except.error msg => Except.error msg
         | Except.ok rs =>
           Except.ok (match r with | some c => c :: rs | none => rs)) := rfl

theorem parse_atom_ok (rfc iso : String → Option PyDateTime)
    (isoF : PyDateTime → String) (src : String) :
    ∀ entries : List AtomEntry, (∀ e ∈ entries, atomLinkOk e) →
    parse_atom rfc iso isoF entries src =
      Except.ok ((entries.filter goodAtom).map (atomItemOf rfc iso isoF src)) := by
  intro entries
  induction entries with
  | nil => intro _; rfl
  | cons e rest ih =>
    intro hok
    have hrest := ih (fun x hx => hok x (List.mem_cons_of_mem e hx))
    rw [parse_atom_cons, hrest]
    cases hcl : chosenLink e with
    | none =>
      rw [atomEntryItem_noLink rfc iso isoF src hcl]
      have hlink : linkOf e = "" := by
        unfold linkOf
        rw [hcl]
      have hg : goodAtom e = false := by simp [goodAtom, hlink]
      rw [List.filter_cons, hg]
      simp
    | some l =>
      cases hhref : l.href with
      | none => exact absurd hhref (hok e (List.mem_cons_self e rest) l hcl)
      | some hs =>
        rw [atomEntryItem_href rfc iso isoF src hcl hhref]
        have hlink : linkOf e = strTrim hs := by
          unfold linkOf
          rw [hcl]
          show strTrim (l.href.getD "") = strTrim hs
          rw [hhref]
          rfl
        by_cases h1 : strTrim e.title = ""
        · have hg : goodAtom e = false := by simp [goodAtom, h1]
          rw [List.filter_cons, hg]
          simp [h1]
        · by_cases h2 : strTrim hs = ""
          · have hg : goodAtom e = false := by simp [goodAtom, hlink, h2]
            rw [List.filter_cons, hg]
            simp [h1, h2]
          · have hg : goodAtom e = true := by simp [goodAtom, h1, hlink, h2]
            rw [List.filter_cons, hg]
            simp [h1, h2, atomItemOf, hlink]

/-!
## Orchestration lemmas (`main` of the research feed)
-/

theorem collectItems_append : ∀ l1 l2 : List SourceOutcome,
    collectItems (l1 ++ l2) = collectItems l1 ++ collectItems l2 := by
  intro l1 l2
  induction l1 with
  | nil => simp [collectItems]
  | cons o rest ih => cases o <;> simp [collectItems, ih]

theorem collectItems_failed : ∀ outcomes : List SourceOutcome,
    (∀ o ∈ outcomes, o.failed) → collectItems outcomes = [] := by
  intro outcomes
  induction outcomes with
  | nil => intro _; rfl
  | cons o rest ih =>
    intro h
    cases o with
    | fetchFailed m => exact ih (fun x hx => h x (List.mem_cons_of_mem _ hx))
    | parseFailed m => exact ih (fun x hx => h x (List.mem_cons_of_mem _ hx))
    | ok items => exact absurd (h _ (List.mem_cons_self _ _)) (fun hf => hf)

theorem mainRun_congr_collect {o1 o2 : List SourceOutcome}
    (prev : Except String PrevFeed) (now : String)
    (h : collectItems o1 = collectItems o2) :
    mainRun o1 prev now = mainRun o2 prev now := by
  simp only [mainRun, h]

theorem collectItems_drop_fetch (pre post : List SourceOutcome) (m : String) :
    collectItems (pre ++ SourceOutcome.fetchFailed m :: post) =
      collectItems (pre ++ post) := by
  rw [collectItems_append, collectItems_append]
  rfl

theorem collectItems_drop_parse (pre post : List SourceOutcome) (m : String) :
    collectItems (pre ++ SourceOutcome.parseFailed m :: post) =
      collectItems (pre ++ post) := by
  rw [collectItems_append, collectItems_append]
  rfl

theorem mainRun_all_failed {outcomes : List SourceOutcome}
    (prev : Except String PrevFeed) (now : String)
    (h : ∀ o ∈ outcomes, o.failed) :
    mainRun outcomes prev now =
      { updated := now, lastUpdated := (load_existing_feed prev).updated,
        items := [] } := by
  simp only [mainRun]
  rw [collectItems_failed outcomes h]
  rfl

/-!
## Claim theorems
-/

theorem parse_date_some (rfc iso : String → Option PyDateTime) (v : String)
    (hv : v ≠ "") :
    parse_date rfc iso (some v) =
      (match rfc (strTrim v) with
       | some dt => some (normalizeUTC dt)
       | none =>
         match iso (zToOffset (strTrim v)) with
         | some dt => some (normalizeUTC dt)
         | none => none) := by
  show (if v = "" then none else _) = _
  rw [if_neg hv]

/-- C1: an item processed by the diff loop of `main`
(update_research_feed.py lines 180-181) is flagged new exactly when its
normalized key is absent from the previous snapshot's case-insensitive url
key set.  The hypothesis `i.url ≠ ""` is the CanonicalItem invariant (both
parsers drop records without a url), under which the normalized key
`(url or title).lower()` is the lowercased url the loop tests. -/
theorem C1_diff_marks_new_iff (fresh : List CanonicalItem) (prev : PrevFeed)
    (i : CanonicalItem) (b : Bool)
    (hmem : (i, b) ∈ markNew fresh (existingKeys prev)) (hurl : i.url ≠ "") :
    b = true ↔ itemKey i ∉ existingKeys prev := by
  unfold markNew at hmem
  rcases List.mem_map.mp hmem with ⟨j, _, hpair⟩
  have hji : j = i := congrArg Prod.fst hpair
  subst hji
  have hb : b = decide (strLower j.url ∉ existingKeys prev) :=
    (congrArg Prod.snd hpair).symm
  subst hb
  rw [decide_eq_true_iff]
  unfold itemKey
  rw [if_neg hurl]

/-- Witness for C1: the spec scenario — previous snapshot holds
`https://a/1`; the fresh item with url `https://A/1` is not new because the
keys match case-insensitively. -/
theorem C1_diff_marks_new_iff_witness :
    itemKey ⟨"X", "https://A/1", "s", none⟩ ∈
      existingKeys ⟨[⟨"https://a/1"⟩], none⟩ := by
  have h := C1_diff_marks_new_iff [⟨"X", "https://A/1", "s", none⟩]
      ⟨[⟨"https://a/1"⟩], none⟩ ⟨"X", "https://A/1", "s", none⟩ false
      (by decide) (by decide)
  by_contra hne
  exact Bool.noConfusion (h.mpr hne)

/-- C2: `dedupe_items` returns a subsequence of its input (first-seen order
preserved); the output's key list has no duplicates; every kept item is the
first input item carrying its normalized key (so later duplicates are
discarded); and a normalized key occurs in the output iff it occurs in the
input. -/
theorem C2_dedupe_first_seen (items : List CanonicalItem) :
    (dedupe_items items).Sublist items ∧
    ((dedupe_items items).map itemKey).Nodup ∧
    (∀ i ∈ dedupe_items items,
      items.find? (fun x => itemKey x == itemKey i) = some i) ∧
    (∀ k, k ∈ (dedupe_items items).map itemKey ↔ k ∈ items.map itemKey) :=
  ⟨dedupeGo_sublist [] items, dedupeGo_key_nodup [] items,
   fun i hi => dedupeGo_first [] items i hi,
   fun k => by rw [dedupe_items, dedupeGo_key_mem]; simp⟩

/-- Witness for C2: a three-item list whose third item repeats the first
key with different casing dedupes to its first two items, and the kept
item is the first occurrence of its key. -/
theorem C2_dedupe_first_seen_witness :
    (dedupe_items [⟨"T1", "http://A", "s", none⟩, ⟨"T2", "http://b", "s", none⟩,
        ⟨"T3", "HTTP://a", "s", none⟩]).Sublist
      [⟨"T1", "http://A", "s", none⟩, ⟨"T2", "http://b", "s", none⟩,
        ⟨"T3", "HTTP://a", "s", none⟩] ∧
    [(⟨"T1", "http://A", "s", none⟩ : CanonicalItem), ⟨"T2", "http://b", "s", none⟩,
        ⟨"T3", "HTTP://a", "s", none⟩].find?
      (fun x => itemKey x == itemKey ⟨"T1", "http://A", "s", none⟩) =
      some ⟨"T1", "http://A", "s", none⟩ := by
  obtain ⟨hs, _, hfind, _⟩ := C2_dedupe_first_seen
    [⟨"T1", "http://A", "s", none⟩, ⟨"T2", "http://b", "s", none⟩,
     ⟨"T3", "HTTP://a", "s", none⟩]
  exact ⟨hs, hfind ⟨"T1", "http://A", "s", none⟩ (by decide)⟩

/-- C5 (code bug): evaluation at the failing input.  `sanitize_xml` strips
the control character U+0001, and the RSS call sites in both scripts as
well as the weekly-content Atom call site feed the sanitized payload to the
structural parser; but `parse_atom` of update_research_feed.py (line 104)
passes the raw payload through, so for that dialect the claimed pre-parse
stripping does not happen. -/
theorem C5_research_atom_unsanitized :
    sanitize_xml ['\x01'] = [] ∧
    rssParseInputResearch ['\x01'] = sanitize_xml ['\x01'] ∧
    rssParseInputWeekly ['\x01'] = sanitize_xml ['\x01'] ∧
    atomParseInputWeekly ['\x01'] = sanitize_xml ['\x01'] ∧
    atomParseInputResearch ['\x01'] = ['\x01'] ∧
    atomParseInputResearch ['\x01'] ≠ sanitize_xml ['\x01'] := by
  decide

/-- C6 counterexample: when the LLM collaborator fails, the weekly-recipes
document's `meals` payload is written as the empty list — no built-in
static fallback is substituted for the meal plan, refuting the claim that
the fallback happens "for the workout plan and the meal plan alike". -/
theorem C6_counterexample :
    (weeklyRecipesDoc "t" (generate_meal_plan_with_claude none) []).meals = [] ∧
    ¬ (weeklyRecipesDoc "t" (generate_meal_plan_with_claude none) []).meals ≠ [] :=
  ⟨rfl, fun h => h rfl⟩

/-- C6 amended: on a failing or schema-violating LLM response the workout
plan falls back to the built-in static `WORKOUT_TEMPLATE` (a non-empty
generated plan is kept as-is), and the run continues; the meal plan however
is written exactly as generated — the empty list on failure, with no
fallback. -/
theorem C6_fallback_amended (recipe_items longevity : List CanonicalItem)
    (now : String) :
    (weeklyWorkoutsDoc now (generate_workouts_with_claude none) longevity).workouts =
      WORKOUT_TEMPLATE ∧
    WORKOUT_TEMPLATE ≠ [] ∧
    (weeklyRecipesDoc now (generate_meal_plan_with_claude none) recipe_items).meals = [] ∧
    (∀ ws : List Workout, ws ≠ [] →
      (weeklyWorkoutsDoc now (generate_workouts_with_claude (some ws)) longevity).workouts = ws) ∧
    (∀ meals : List MealDay,
      (weeklyRecipesDoc now (generate_meal_plan_with_claude (some meals)) recipe_items).meals = meals) := by
  refine ⟨rfl, by decide, rfl, ?_, fun meals => rfl⟩
  intro ws hws
  have hne : ws.isEmpty = false := by
    cases ws with
    | nil => exact absurd rfl hws
    | cons a l => rfl
  simp [weeklyWorkoutsDoc, generate_workouts_with_claude, hne]

/-- Witness for C6: concrete failing and succeeding generations. -/
theorem C6_fallback_amended_witness :
    (weeklyWorkoutsDoc "t" (generate_workouts_with_claude none) []).workouts =
      WORKOUT_TEMPLATE ∧
    (weeklyRecipesDoc "t" (generate_meal_plan_with_claude none) []).meals = [] ∧
    (weeklyWorkoutsDoc "t" (generate_workouts_with_claude
        (some [⟨"Monday", "Upper", "LA Fitness", []⟩])) []).workouts =
      [⟨"Monday", "Upper", "LA Fitness", []⟩] := by
  obtain ⟨h1, _, h3, h4, _⟩ := C6_fallback_amended [] [] "t"
  exact ⟨h1, h3, h4 [⟨"Monday", "Upper", "LA Fitness", []⟩] (by decide)⟩

/-- C7: all source-local failures are recovered — a previous-snapshot read
failure degrades to the empty snapshot; a failing source (fetch or parse)
contributes zero records and leaves every other source's contribution
unchanged; and a run in which every source fails still produces a snapshot
with zero items (the write itself, the only fatal boundary, lies outside
`mainRun`, which is total). -/
theorem C7_failure_isolation (prev : Except String PrevFeed) (now : String)
    (pre post outcomes : List SourceOutcome) (m p e : String) :
    load_existing_feed (Except.error e) = { items := [], updated := none } ∧
    mainRun (pre ++ SourceOutcome.fetchFailed m :: post) prev now =
      mainRun (pre ++ post) prev now ∧
    mainRun (pre ++ SourceOutcome.parseFailed p :: post) prev now =
      mainRun (pre ++ post) prev now ∧
    ((∀ o ∈ outcomes, o.failed) →
      mainRun outcomes prev now =
        { updated := now, lastUpdated := (load_existing_feed prev).updated,
          items := [] }) :=
  ⟨rfl,
   mainRun_congr_collect prev now (collectItems_drop_fetch pre post m),
   mainRun_congr_collect prev now (collectItems_drop_parse pre post p),
   fun h => mainRun_all_failed prev now h⟩

/-- Witness for C7: a run whose every source fails, with a corrupt previous
snapshot, still writes the empty snapshot. -/
theorem C7_failure_isolation_witness :
    mainRun [SourceOutcome.fetchFailed "boom", SourceOutcome.parseFailed "bad"]
        (Except.error "gone") "t" =
      { updated := "t", lastUpdated := none, items := [] } := by
  obtain ⟨h1, _, _, h4⟩ := C7_failure_isolation (Except.error "gone") "t" [] []
    [SourceOutcome.fetchFailed "boom", SourceOutcome.parseFailed "bad"] "m" "p" "gone"
  have h5 := h4 (by decide)
  rw [h5, h1]

/-- C8: `parse_date` tries the RFC-822 grammar first and falls back to the
ISO-8601 grammar (after the `Z` suffix rewrite); a datetime without zone
information is stamped UTC with its wall-clock unchanged; every successful
result carries the UTC (zero) offset; absent (`None`/empty) or unparseable
input yields no timestamp rather than an error; and in the
published-descending sort an item without a timestamp never precedes an
item with one. -/
theorem C8_parse_date_contract (rfc iso : String → Option PyDateTime) :
    parse_date rfc iso none = none ∧
    parse_date rfc iso (some "") = none ∧
    (∀ v dt, v ≠ "" → rfc (strTrim v) = some dt →
      parse_date rfc iso (some v) = some (normalizeUTC dt)) ∧
    (∀ v dt, v ≠ "" → rfc (strTrim v) = none →
      iso (zToOffset (strTrim v)) = some dt →
      parse_date rfc iso (some v) = some (normalizeUTC dt)) ∧
    (∀ v, v ≠ "" → rfc (strTrim v) = none →
      iso (zToOffset (strTrim v)) = none →
      parse_date rfc iso (some v) = none) ∧
    (∀ dt, (normalizeUTC dt).tz = some 0) ∧
    (∀ dt, dt.tz = none → (normalizeUTC dt).wall = dt.wall) ∧
    (∀ items : List CanonicalItem,
      (sortByDesc pubKey items).Pairwise
        (fun a b => a.published = none → pubKey b = "")) := by
  refine ⟨rfl, rfl, ?_, ?_, ?_, ?_, ?_, ?_⟩
  · intro v dt hv hrfc
    rw [parse_date_some rfc iso v hv, hrfc]
  · intro v dt hv hrfc hiso
    rw [parse_date_some rfc iso v hv, hrfc, hiso]
  · intro v hv hrfc hiso
    rw [parse_date_some rfc iso v hv, hrfc, hiso]
  · intro dt
    rcases dt with ⟨w, tz⟩
    cases tz <;> rfl
  · intro dt h
    rcases dt with ⟨w, tz⟩
    cases tz with
    | none => rfl
    | some off => exact Option.noConfusion h
  · intro items
    refine (sortByDesc_pairwise pubKey items).imp ?_
    intro a b hle ha
    have hpa : pubKey a = "" := by rw [pubKey, ha]; rfl
    rw [hpa] at hle
    exact strLe_empty_right hle

/-- Witness for C8: a constant RFC-822 collaborator returning a naive
datetime makes `parse_date` return that wall-clock stamped UTC; absent
input gives no timestamp. -/
theorem C8_parse_date_contract_witness :
    parse_date (fun _ => some ⟨100, none⟩) (fun _ => none) (some "x") =
      some ⟨100, some 0⟩ ∧
    parse_date (fun _ => some ⟨100, none⟩) (fun _ => none) none = none := by
  obtain ⟨h1, _, h3, _, _, _, _, _⟩ :=
    C8_parse_date_contract (fun _ => some ⟨100, none⟩) (fun _ => none)
  refine ⟨?_, h1⟩
  have h := h3 "x" ⟨100, none⟩ (by decide) rfl
  rw [h]
  rfl

theorem hasF_addSleepPeriods_mono (batch : List SleepPeriodItem) {dd : DailyData}
    {d k : String} (h : hasF dd d k = true) :
    hasF (addSleepPeriods dd batch) d k = true :=
  hasF_spFold_mono (sleepByDate batch) h

/-- C3: in the date-keyed merge of sync_oura.py, every batch that mentions
a (non-empty) date contributes its whole field group to that date's merged
record — so for any pair of batches targeting the same date the merged
record contains the union of both groups' fields; the `daily_data` mapping
holds exactly one record per date key; and the serialized `days` array
lists the records in strictly descending date order (one per date). -/
theorem C3_merge_union (ds : List SleepScoreItem) (sp : List SleepPeriodItem)
    (rd : List ReadinessItem) (ac : List ActivityItem) (hr : List HeartRateItem)
    (so : List Spo2Item) (d : String) (hd : d ≠ "") :
    ((∃ i ∈ ds, SleepScoreItem.date i = d) →
      ∀ k ∈ ssNames, hasF (mergeDaily ds sp rd ac hr so) d k = true) ∧
    ((∃ i ∈ sp, SleepPeriodItem.date i = d) →
      ∀ k ∈ spNames, hasF (mergeDaily ds sp rd ac hr so) d k = true) ∧
    ((∃ i ∈ rd, ReadinessItem.date i = d) →
      ∀ k ∈ rdNames, hasF (mergeDaily ds sp rd ac hr so) d k = true) ∧
    ((∃ i ∈ ac, ActivityItem.date i = d) →
      ∀ k ∈ acNames, hasF (mergeDaily ds sp rd ac hr so) d k = true) ∧
    ((∃ i ∈ hr, HeartRateItem.date i = d) →
      ∀ k ∈ hrNames, hasF (mergeDaily ds sp rd ac hr so) d k = true) ∧
    ((∃ i ∈ so, Spo2Item.date i = d) →
      ∀ k ∈ soNames, hasF (mergeDaily ds sp rd ac hr so) d k = true) ∧
    ((mergeDaily ds sp rd ac hr so).map Prod.fst).Nodup ∧
    (sortedDatesDesc (mergeDaily ds sp rd ac hr so)).Perm
      ((mergeDaily ds sp rd ac hr so).map Prod.fst) ∧
    (sortedDatesDesc (mergeDaily ds sp rd ac hr so)).Pairwise
      (fun a b => strLe b a = true ∧ b ≠ a) ∧
    (∀ x, x ∈ sortedDatesDesc (mergeDaily ds sp rd ac hr so) ↔
      (alookup x (mergeDaily ds sp rd ac hr so)).isSome = true) ∧
    (serializeDays (mergeDaily ds sp rd ac hr so)).length =
      ((mergeDaily ds sp rd ac hr so).map Prod.fst).length := by
  have hmerge : mergeDaily ds sp rd ac hr so =
      addBatch Spo2Item.date soFields
        (addBatch HeartRateItem.date hrFields
          (addBatch ActivityItem.date acFields
            (addBatch ReadinessItem.date rdFields
              (addSleepPeriods (addBatch SleepScoreItem.date ssFields [] ds) sp)
              rd) ac) hr) so := rfl
  refine ⟨?_, ?_, ?_, ?_, ?_, ?_, mergeDaily_keys_nodup ds sp rd ac hr so, ?_, ?_, ?_, ?_⟩
  · rintro ⟨i, hi, hdate⟩ k hk
    rw [hmerge]
    apply hasF_addBatch_mono
    apply hasF_addBatch_mono
    apply hasF_addBatch_mono
    apply hasF_addBatch_mono
    apply hasF_addSleepPeriods_mono
    have hkk : k ∈ (ssFields i).map Prod.fst := by rw [ssFields_names]; exact hk
    have hdd : SleepScoreItem.date i ≠ "" := by rw [hdate]; exact hd
    have h := hasF_addBatch_establish SleepScoreItem.date ssFields hi hdd hkk []
    rw [hdate] at h
    exact h
  · rintro ⟨i, hi, hdate⟩ k hk
    rw [hmerge]
    apply hasF_addBatch_mono
    apply hasF_addBatch_mono
    apply hasF_addBatch_mono
    apply hasF_addBatch_mono
    have hdd : i.date ≠ "" := by rw [hdate]; exact hd
    have hsome := sleepByDate_isSome hi hdd
    rw [hdate] at hsome
    rcases Option.isSome_iff_exists.mp hsome with ⟨it, hit⟩
    have hmem2 := alookup_mem hit
    have hkk : k ∈ (spFields ((d, it) : String × SleepPeriodItem).2).map Prod.fst := by
      rw [spFields_names]; exact hk
    exact hasF_spFold_establish (sleepByDate sp) hmem2 hkk
      (addBatch SleepScoreItem.date ssFields [] ds)
  · rintro ⟨i, hi, hdate⟩ k hk
    rw [hmerge]
    apply hasF_addBatch_mono
    apply hasF_addBatch_mono
    apply hasF_addBatch_mono
    have hkk : k ∈ (rdFields i).map Prod.fst := by rw [rdFields_names]; exact hk
    have hdd : ReadinessItem.date i ≠ "" := by rw [hdate]; exact hd
    have h := hasF_addBatch_establish ReadinessItem.date rdFields hi hdd hkk
      (addSleepPeriods (addBatch SleepScoreItem.date ssFields [] ds) sp)
    rw [hdate] at h
    exact h
  · rintro ⟨i, hi, hdate⟩ k hk
    rw [hmerge]
    apply hasF_addBatch_mono
    apply hasF_addBatch_mono
    have hkk : k ∈ (acFields i).map Prod.fst := by rw [acFields_names]; exact hk
    have hdd : ActivityItem.date i ≠ "" := by rw [hdate]; exact hd
    have h := hasF_addBatch_establish ActivityItem.date acFields hi hdd hkk
      (addBatch ReadinessItem.date rdFields
        (addSleepPeriods (addBatch SleepScoreItem.date ssFields [] ds) sp) rd)
    rw [hdate] at h
    exact h
  · rintro ⟨i, hi, hdate⟩ k hk
    rw [hmerge]
    apply hasF_addBatch_mono
    have hkk : k ∈ (hrFields i).map Prod.fst := by rw [hrFields_names]; exact hk
    have hdd : HeartRateItem.date i ≠ "" := by rw [hdate]; exact hd
    have h := hasF_addBatch_establish HeartRateItem.date hrFields hi hdd hkk
      (addBatch ActivityItem.date acFields
        (addBatch ReadinessItem.date rdFields
          (addSleepPeriods (addBatch SleepScoreItem.date ssFields [] ds) sp) rd) ac)
    rw [hdate] at h
    exact h
  · rintro ⟨i, hi, hdate⟩ k hk
    rw [hmerge]
    have hkk : k ∈ (soFields i).map Prod.fst := by rw [soFields_names]; exact hk
    have hdd : Spo2Item.date i ≠ "" := by rw [hdate]; exact hd
    have h := hasF_addBatch_establish Spo2Item.date soFields hi hdd hkk
      (addBatch HeartRateItem.date hrFields
        (addBatch ActivityItem.date acFields
          (addBatch ReadinessItem.date rdFields
            (addSleepPeriods (addBatch SleepScoreItem.date ssFields [] ds) sp) rd)
          ac) hr)
    rw [hdate] at h
    exact h
  · exact sortByDesc_perm (fun x => x) ((mergeDaily ds sp rd ac hr so).map Prod.fst)
  · have hpw := sortByDesc_pairwise (fun x => x)
      ((mergeDaily ds sp rd ac hr so).map Prod.fst)
    have hnd : (sortedDatesDesc (mergeDaily ds sp rd ac hr so)).Pairwise (· ≠ ·) :=
      (sortByDesc_perm (fun x => x) ((mergeDaily ds sp rd ac hr so).map Prod.fst)).symm.nodup
        (mergeDaily_keys_nodup ds sp rd ac hr so)
    exact (hpw.and hnd).imp (fun hab => ⟨hab.1, hab.2.symm⟩)
  · intro x
    unfold sortedDatesDesc
    rw [(sortByDesc_perm (fun y => y) ((mergeDaily ds sp rd ac hr so).map Prod.fst)).mem_iff]
    exact (alookup_isSome x (mergeDaily ds sp rd ac hr so)).symm
  · show ((sortedDatesDesc (mergeDaily ds sp rd ac hr so)).map _).length = _
    rw [List.length_map]
    exact (sortByDesc_perm (fun x => x) ((mergeDaily ds sp rd ac hr so).map Prod.fst)).length_eq

/-- Witness for C3: the spec scenario — a sleep-score batch with score 80
and an activity batch with 9000 steps, both for 2024-05-01, merge into a
record carrying both field groups. -/
theorem C3_merge_union_witness :
    hasF (mergeDaily [⟨"2024-05-01", JVal.int 80, JVal.null⟩] [] []
        [⟨"2024-05-01", JVal.int 77, JVal.null, JVal.null, JVal.int 9000,
          JVal.null, JVal.null, JVal.null, JVal.null, JVal.null, JVal.null,
          JVal.null⟩] [] []) "2024-05-01" "sleep_score" = true ∧
    hasF (mergeDaily [⟨"2024-05-01", JVal.int 80, JVal.null⟩] [] []
        [⟨"2024-05-01", JVal.int 77, JVal.null, JVal.null, JVal.int 9000,
          JVal.null, JVal.null, JVal.null, JVal.null, JVal.null, JVal.null,
          JVal.null⟩] [] []) "2024-05-01" "steps" = true := by
  obtain ⟨h1, _, _, h4, _, _, _, _, _, _, _⟩ :=
    C3_merge_union [⟨"2024-05-01", JVal.int 80, JVal.null⟩] [] []
      [⟨"2024-05-01", JVal.int 77, JVal.null, JVal.null, JVal.int 9000,
        JVal.null, JVal.null, JVal.null, JVal.null, JVal.null, JVal.null,
        JVal.null⟩] [] [] "2024-05-01" (by decide)
  refine ⟨h1 ⟨_, List.mem_cons_self _ _, rfl⟩ _ (by decide),
    h4 ⟨_, List.mem_cons_self _ _, rfl⟩ _ (by decide)⟩

/-- C4: the sleep period `sleep_by_date` keeps for a date is a candidate of
the batch for that date whose `total_sleep_duration or 0` is maximal among
all candidates for the date, and the merged record for that date carries
exactly that candidate's detail field values (no later batch overwrites
them, since the other groups' field names are disjoint). -/
theorem C4_longest_period_wins (ds : List SleepScoreItem) (sp : List SleepPeriodItem)
    (rd : List ReadinessItem) (ac : List ActivityItem) (hr : List HeartRateItem)
    (so : List Spo2Item) (d : String) (it : SleepPeriodItem)
    (h : alookup d (sleepByDate sp) = some it) :
    it ∈ sp ∧ it.date = d ∧
    (∀ o ∈ sp, o.date = d → spDur o ≤ spDur it) ∧
    (∀ k v, (k, v) ∈ spFields it →
      getF (mergeDaily ds sp rd ac hr so) d k = some v) := by
  obtain ⟨hmem, hdate, hmax⟩ := sleepByDate_spec sp h
  refine ⟨hmem, hdate, hmax, ?_⟩
  intro k v hkv
  have hkname : k ∈ spNames := by
    rw [← spFields_names it]
    exact List.mem_map_of_mem Prod.fst hkv
  have hrd : ∀ x ∈ spNames, x ∉ rdNames := by decide
  have hac : ∀ x ∈ spNames, x ∉ acNames := by decide
  have hhr : ∀ x ∈ spNames, x ∉ hrNames := by decide
  have hso : ∀ x ∈ spNames, x ∉ soNames := by decide
  have hval : getF (addSleepPeriods (addBatch SleepScoreItem.date ssFields [] ds) sp)
      d k = some v :=
    getF_spFold_value (sleepByDate sp) _ h (sleepByDate_keys_nodup sp) hkv
  have hmerge : mergeDaily ds sp rd ac hr so =
      addBatch Spo2Item.date soFields
        (addBatch HeartRateItem.date hrFields
          (addBatch ActivityItem.date acFields
            (addBatch ReadinessItem.date rdFields
              (addSleepPeriods (addBatch SleepScoreItem.date ssFields [] ds) sp)
              rd) ac) hr) so := rfl
  rw [hmerge]
  refine getF_addBatch_pres _ _ _
    (getF_addBatch_pres _ _ _
      (getF_addBatch_pres _ _ _
        (getF_addBatch_pres _ _ _ hval
          (fun i _ => by rw [rdFields_names]; exact hrd k hkname))
        (fun i _ => by rw [acFields_names]; exact hac k hkname))
      (fun i _ => by rw [hrFields_names]; exact hhr k hkname))
    (fun i _ => by rw [soFields_names]; exact hso k hkname)

/-- Witness for C4: the spec scenario — candidates with total durations
3600 and 7200 seconds for 2024-05-01; the merged record keeps the
7200-second period's detail fields. -/
theorem C4_longest_period_wins_witness :
    getF (mergeDaily []
        [⟨"2024-05-01", JVal.str "s1", JVal.str "e1", some 3600, JVal.null,
          JVal.null, JVal.null, JVal.null, JVal.null, JVal.null, JVal.null,
          JVal.null, JVal.null, JVal.null⟩,
         ⟨"2024-05-01", JVal.str "s2", JVal.str "e2", some 7200, JVal.null,
          JVal.null, JVal.null, JVal.null, JVal.null, JVal.null, JVal.null,
          JVal.null, JVal.null, JVal.null⟩] [] [] [] [])
      "2024-05-01" "total_sleep_seconds" = some (JVal.int 7200) := by
  have h := C4_longest_period_wins [] 
      [⟨"2024-05-01", JVal.str "s1", JVal.str "e1", some 3600, JVal.null,
        JVal.null, JVal.null, JVal.null, JVal.null, JVal.null, JVal.null,
        JVal.null, JVal.null, JVal.null⟩,
       ⟨"2024-05-01", JVal.str "s2", JVal.str "e2", some 7200, JVal.null,
        JVal.null, JVal.null, JVal.null, JVal.null, JVal.null, JVal.null,
        JVal.null, JVal.null, JVal.null⟩] [] [] [] [] "2024-05-01"
      ⟨"2024-05-01", JVal.str "s2", JVal.str "e2", some 7200, JVal.null,
        JVal.null, JVal.null, JVal.null, JVal.null, JVal.null, JVal.null,
        JVal.null, JVal.null, JVal.null⟩ rfl
  exact h.2.2.2 "total_sleep_seconds" (JVal.int 7200)
    (List.Mem.tail _ (List.Mem.tail _ (List.Mem.head _)))

/-- C9 counterexample: a feed payload consisting of one Atom entry whose
link element carries `rel="alternate"` but no `href` attribute makes
`parse_atom` raise (`None.strip()` → AttributeError, the `Except.error`
outcome) instead of silently excluding the record, refuting "dropped, not
an error" as universally stated. -/
theorem C9_counterexample :
    parse_atom (fun _ => none) (fun _ => none) (fun _ => "")
        [⟨"X", [⟨some "alternate", none⟩], "", ""⟩] "src" =
      Except.error "AttributeError: NoneType object has no attribute strip" := rfl

/-- C9 amended: a record whose title or link is missing or empty after
trimming is silently excluded and every emitted CanonicalItem has a
non-empty title and url — unconditionally for the RSS dialect, and for the
Atom dialect provided every entry's chosen link element carries an `href`
attribute; an Atom entry whose chosen link element lacks `href` instead
raises, aborting that payload's parse. -/
theorem C9_drop_empty_records (rfc iso : String → Option PyDateTime)
    (isoF : PyDateTime → String) (doc : RssDoc) (entries : List AtomEntry)
    (src : String) :
    parse_rss rfc iso isoF doc src =
      ((doc.channel.getD []).filter goodRss).map (rssItemOf rfc iso isoF src) ∧
    (∀ c ∈ parse_rss rfc iso isoF doc src, c.title ≠ "" ∧ c.url ≠ "") ∧
    ((∀ e ∈ entries, atomLinkOk e) →
      parse_atom rfc iso isoF entries src =
        Except.ok ((entries.filter goodAtom).map (atomItemOf rfc iso isoF src)) ∧
      ∀ res, parse_atom rfc iso isoF entries src = Except.ok res →
        ∀ c ∈ res, c.title ≠ "" ∧ c.url ≠ "") ∧
    (∀ (e : AtomEntry) (l : AtomLink), chosenLink e = some l → l.href = none →
      atomEntryItem rfc iso isoF src e =
        Except.error "AttributeError: NoneType object has no attribute strip") := by
  refine ⟨parse_rss_eq rfc iso isoF doc src, ?_, ?_, ?_⟩
  · intro c hc
    rw [parse_rss_eq] at hc
    rcases List.mem_map.mp hc with ⟨it, hit, rfl⟩
    have hg : goodRss it = true := List.of_mem_filter hit
    simp only [goodRss, Bool.and_eq_true, Bool.not_eq_true', beq_eq_false_iff_ne,
      ne_eq] at hg
    exact ⟨hg.1, hg.2⟩
  · intro hok
    refine ⟨parse_atom_ok rfc iso isoF src entries hok, ?_⟩
    intro res hres c hc
    rw [parse_atom_ok rfc iso isoF src entries hok] at hres
    injection hres with hres
    subst hres
    rcases List.mem_map.mp hc with ⟨e2, he2, rfl⟩
    have hg : goodAtom e2 = true := List.of_mem_filter he2
    simp only [goodAtom, Bool.and_eq_true, Bool.not_eq_true', beq_eq_false_iff_ne,
      ne_eq] at hg
    exact ⟨hg.1, hg.2⟩
  · intro e l hcl hh
    exact atomEntryItem_noHref rfc iso isoF src hcl hh

/-- Witness for C9: an RSS payload with one good item and one empty-title
item parses to the good item only; an Atom payload whose entry's link has
an href parses to its one good item. -/
theorem C9_drop_empty_records_witness :
    parse_rss (fun _ => none) (fun _ => none) (fun _ => "")
        ⟨some [⟨some "T", some "http://u", none, none⟩,
               ⟨some "", some "http://v", none, none⟩]⟩ "s" =
      [⟨"T", "http://u", "s", none⟩] ∧
    parse_atom (fun _ => none) (fun _ => none) (fun _ => "")
        [⟨"TA", [⟨some "alternate", some "http://w"⟩], "", ""⟩] "s" =
      Except.ok [⟨"TA", "http://w", "s", none⟩] := by
  obtain ⟨h1, _, h3, _⟩ := C9_drop_empty_records (fun _ => none) (fun _ => none)
    (fun _ => "")
    ⟨some [⟨some "T", some "http://u", none, none⟩,
           ⟨some "", some "http://v", none, none⟩]⟩
    [⟨"TA", [⟨some "alternate", some "http://w"⟩], "", ""⟩] "s"
  have hok : ∀ e ∈ ([⟨"TA", [⟨some "alternate", some "http://w"⟩], "", ""⟩] :
      List AtomEntry), atomLinkOk e := by
    intro e he l hcl
    rcases List.mem_singleton.mp he
    injection hcl with h2
    rw [← h2]
    simp
  obtain ⟨h4, _⟩ := h3 hok
  constructor
  · rw [h1]
    rfl
  · rw [h4]
    rfl

theorem take50_key_absent {l : List (CanonicalItem × Bool)}
    (hnd : (l.map (fun p => strLower p.1.url)).Nodup)
    {j : Nat} (hj : j < l.length) (h50 : 50 ≤ j) :
    strLower (l.get ⟨j, hj⟩).1.url ∉
      (l.take 50).map (fun p => strLower p.1.url) := by
  have hsplit : l.take 50 ++ l.drop 50 = l := List.take_append_drop 50 l
  have hnd2 : ((l.take 50).map (fun p => strLower p.1.url) ++
      (l.drop 50).map (fun p => strLower p.1.url)).Nodup := by
    rw [← List.map_append, hsplit]
    exact hnd
  have hdisj := List.disjoint_of_nodup_append hnd2
  have hjd : j - 50 < (l.drop 50).length := by
    rw [List.length_drop]
    omega
  have hget : (l.drop 50).get ⟨j - 50, hjd⟩ = l.get ⟨j, hj⟩ := by
    show (l.drop 50)[j - 50] = l[j]
    rw [List.getElem_drop]
    congr 1
    omega
  intro hmem
  have hmem2 : strLower (l.get ⟨j, hj⟩).1.url ∈
      (l.drop 50).map (fun p => strLower p.1.url) := by
    rw [← hget]
    exact List.mem_map_of_mem _ (List.get_mem _ _ _)
  exact hdisj hmem hmem2

theorem marked_keys_nodup (items : List CanonicalItem) (prevKeys : List String)
    (hurl : ∀ i ∈ items, i.url ≠ "") (hnd : (items.map itemKey).Nodup) :
    ((markNew (sortByDesc pubKey items) prevKeys).map
      (fun p => strLower p.1.url)).Nodup := by
  have hperm : (sortByDesc pubKey items).Perm items := sortByDesc_perm pubKey items
  have hsub : ∀ i ∈ sortByDesc pubKey items, i.url ≠ "" :=
    fun i hi => hurl i (hperm.mem_iff.mp hi)
  have hcomp : ((markNew (sortByDesc pubKey items) prevKeys).map
      (fun p => strLower p.1.url)) =
      (sortByDesc pubKey items).map (fun i => strLower i.url) := by
    unfold markNew
    rw [List.map_map]
    rfl
  rw [hcomp]
  have hmapeq : (sortByDesc pubKey items).map (fun i => strLower i.url) =
      (sortByDesc pubKey items).map itemKey := by
    apply List.map_congr_left
    intro i hi
    unfold itemKey
    rw [if_neg (hsub i hi)]
  rw [hmapeq]
  exact ((hperm.map itemKey).symm).nodup hnd

/-- C10: the snapshot `main` persists holds at most 50 items — exactly the
first 50 of the sorted, deduplicated, flagged sequence — and any item past
the 50th position of that sequence, although deduplicated and flagged
during the run, is absent from the persisted snapshot and hence from the
key set the next run derives from it. -/
theorem C10_snapshot_truncates (outcomes : List SourceOutcome)
    (prev : Except String PrevFeed) (now : String) :
    (mainRun outcomes prev now).items.length ≤ 50 ∧
    (mainRun outcomes prev now).items =
      (markNew (sortByDesc pubKey (dedupe_items (collectItems outcomes)))
        (existingKeys (load_existing_feed prev))).take 50 ∧
    ((∀ i ∈ collectItems outcomes, i.url ≠ "") →
      ∀ (j : Nat)
        (hj : j < (markNew (sortByDesc pubKey (dedupe_items (collectItems outcomes)))
          (existingKeys (load_existing_feed prev))).length),
        50 ≤ j →
        strLower (((markNew (sortByDesc pubKey (dedupe_items (collectItems outcomes)))
          (existingKeys (load_existing_feed prev))).get ⟨j, hj⟩).1.url) ∉
          existingKeys (toPrevFeed (mainRun outcomes prev now))) := by
  refine ⟨?_, rfl, ?_⟩
  · show ((markNew (sortByDesc pubKey (dedupe_items (collectItems outcomes)))
      (existingKeys (load_existing_feed prev))).take 50).length ≤ 50
    exact List.length_take_le 50 _
  · intro hurl j hj h50
    have hnd := marked_keys_nodup (dedupe_items (collectItems outcomes))
      (existingKeys (load_existing_feed prev))
      (fun i hi => hurl i ((dedupeGo_sublist [] _).subset hi))
      (dedupeGo_key_nodup [] _)
    have habs := take50_key_absent hnd hj h50
    intro hmem
    apply habs
    have heq : existingKeys (toPrevFeed (mainRun outcomes prev now)) =
        ((markNew (sortByDesc pubKey (dedupe_items (collectItems outcomes)))
          (existingKeys (load_existing_feed prev))).take 50).map
          (fun p => strLower p.1.url) := by
      simp only [existingKeys, toPrevFeed, mainRun, List.map_map]
      rfl
    rw [heq] at hmem
    exact hmem

/-- Witness for C10: a single-source run keeps its one item (and at most
50). -/
theorem C10_snapshot_truncates_witness :
    (mainRun [SourceOutcome.ok [⟨"T", "http://u", "s", none⟩]]
        (Except.error "x") "t").items =
      [(⟨"T", "http://u", "s", none⟩, true)] ∧
    (mainRun [SourceOutcome.ok [⟨"T", "http://u", "s", none⟩]]
        (Except.error "x") "t").items.length ≤ 50 := by
  obtain ⟨h1, h2, h3⟩ := C10_snapshot_truncates
    [SourceOutcome.ok [⟨"T", "http://u", "s", none⟩]] (Except.error "x") "t"
  have hdis := h3 (by decide)
  refine ⟨?_, h1⟩
  rw [h2]
  rfl
